import Mathlib

/-!
# Serial protocol of the robot firmware

A shallow embedding of `lib/SerialProtocol/SerialProtocol.cpp` (framing codec, CRC8
engine, packet parser, command queue, packet serializer), of the byte constants and
`mux_channel` of `include/byte_definitions.h`, and of the status-poll loop, the composite
operations and the command dispatcher of `src/controller/main.cpp`.

Conventions of the embedding.

* A `uint8_t` is a `Nat`; a value that is stored in a byte after an operation that can
  leave the byte range is reduced `% 256`.  Inputs that the C++ types force to be bytes
  are constrained by hypotheses of the form `b < 256` where a theorem needs it.
* A `(pointer, length)` pair is a `List Nat` together with a `Nat`; a loop that reads
  `data[0] .. data[len-1]` traverses `data.take len`.
* The header `SerialProtocol.h` is not part of the sources.  Its constants
  `MAX_PAYLOAD_SIZE`, `MAX_ESCAPED_PACKET_SIZE` and `CMD_QUEUE_SIZE` are parameters of
  the definitions that use them.
* Stateful methods of `SerialParser` are functions from a parser record to a parser
  record; `DBG_PRINTLN` diagnostics have no effect on the state and are left out.
* Fixed-size buffers are lists.  The parser's payload buffer and the queue have their
  declared sizes (`MAX_PAYLOAD_SIZE` bytes, `CMD_QUEUE_SIZE` slots) as hypotheses or
  proved invariants; the `packet` member that `send_packet` fills is taken to be large
  enough for the packet it is given.
-/

namespace Byte.Protocol

def START : Nat := 0xAA
def ESCAPE : Nat := 0xAB
def ESCAPE_MASK : Nat := 0x20
def CRC8_POLY : Nat := 0x07

end Byte.Protocol

namespace Byte.Address

def BROADCAST : Nat := 0x00

end Byte.Address

open Byte.Protocol Byte.Address

/-! ## CRC8 engine -/

/-- The inner `for (int i = 0; i < 8; ++i)` loop of `SerialParser::update_crc8`, with the
number of remaining rounds as first argument; the accumulator is a `uint8_t`. -/
def update_crc8_rounds : Nat → Nat → Nat
  | 0, crc8_acc => crc8_acc
  | n + 1, crc8_acc =>
    update_crc8_rounds n
      (if crc8_acc &&& 0x80 ≠ 0 then ((crc8_acc <<< 1) ^^^ CRC8_POLY) % 256
       else (crc8_acc <<< 1) % 256)

/-- The method `SerialParser::update_crc8`, as a function of the accumulator. -/
def update_crc8 (crc8_acc byte : Nat) : Nat :=
  update_crc8_rounds 8 (crc8_acc ^^^ byte)

/-- The inner loop of `SerialProtocol::crc8`. -/
def crc8_rounds : Nat → Nat → Nat
  | 0, crc => crc
  | n + 1, crc =>
    crc8_rounds n
      (if crc &&& 0x80 ≠ 0 then ((crc <<< 1) ^^^ CRC8_POLY) % 256 else (crc <<< 1) % 256)

/-- The outer loop of `SerialProtocol::crc8` over the bytes still to be read. -/
def crc8_loop : List Nat → Nat → Nat
  | [], crc => crc
  | b :: rest, crc => crc8_loop rest (crc8_rounds 8 (crc ^^^ b))

/-- The method `SerialProtocol::crc8(data, len)`. -/
def crc8 (data : List Nat) (len : Nat) : Nat :=
  crc8_loop (data.take len) 0x00

/-! ### Polynomials over GF(2), for the statement of the CRC claim

A polynomial over GF(2) is encoded by the natural number whose bit `i` is the
coefficient of `x^i`; addition of polynomials is `^^^`, multiplication by `x^k` is
`<<< k`. -/

/-- Carry-less product: the product of the polynomials encoded by `q` and `g`, by
Horner evaluation along the bits of `q` (binary digits, least significant first). -/
def clmul (q g : Nat) : Nat :=
  (Nat.digits 2 q).foldr (fun bit acc => (acc <<< 1) ^^^ (bit * g)) 0

/-- The message polynomial of a byte sequence, bytes most significant first. -/
def msgPoly (d : List Nat) : Nat :=
  d.foldl (fun m b => (m <<< 8) ^^^ b) 0

/-- The generator `x^8 + x^2 + x + 1` of the CRC: `CRC8_POLY` with the leading term. -/
def crc8Generator : Nat := 0x100 ^^^ CRC8_POLY

/-! ## Framing codec and packet serializer -/

/-- The loop of `SerialProtocol::escape_packet` over the bytes of `data` still to be
read; `escaped_packet` is the output written so far (its length is `index`).  Each
`break` returns the output as it stands. -/
def escape_packet_loop (MAX_ESCAPED_PACKET_SIZE : Nat) : List Nat → List Nat → List Nat
  | [], escaped_packet => escaped_packet
  | b :: rest, escaped_packet =>
    if b = START ∨ b = ESCAPE then
      if escaped_packet.length + 1 ≥ MAX_ESCAPED_PACKET_SIZE then escaped_packet
      else
        escape_packet_loop MAX_ESCAPED_PACKET_SIZE rest
          (escaped_packet ++ [ESCAPE, b ^^^ ESCAPE_MASK])
    else
      if escaped_packet.length ≥ MAX_ESCAPED_PACKET_SIZE then escaped_packet
      else escape_packet_loop MAX_ESCAPED_PACKET_SIZE rest (escaped_packet ++ [b])

/-- The method `SerialProtocol::escape_packet(data, len, escaped_packet)`: the bytes written to
`escaped_packet`; the returned `index` is the length of this list. -/
def escape_packet (MAX_ESCAPED_PACKET_SIZE : Nat) (data : List Nat) (len : Nat) : List Nat :=
  escape_packet_loop MAX_ESCAPED_PACKET_SIZE (data.take len) []

/-- Modelled from the spec: `writeUint16LE` of `Serialization.h`, which is not part of
the sources; the spec has the length field as `u16 little-endian`, low byte first. -/
def writeUint16LE (value : Nat) : List Nat :=
  [value % 256, value / 256 % 256]

/-- The contents `packet[0 .. index-1]` that `SerialProtocol::send_packet` has built when
it calls `escape_packet`: address, command, length, payload and CRC.  A null `payload`
pointer is `none`. -/
def send_packet_raw (addr cmd : Nat) (payload : Option (List Nat)) (payload_len : Nat) :
    List Nat :=
  let packet := [addr, cmd] ++ writeUint16LE payload_len
  let packet :=
    match payload with
    | some bytes => if payload_len > 0 then packet ++ bytes.take payload_len else packet
    | none => packet
  let crc := crc8 packet packet.length
  packet ++ [crc]

/-- The method `SerialProtocol::send_packet(addr, cmd, payload, payload_len)`: the bytes handed to
`write_callback`, in order; nothing is written when the callback is not set. -/
def send_packet (MAX_ESCAPED_PACKET_SIZE : Nat) (write_callback : Bool) (addr cmd : Nat)
    (payload : Option (List Nat)) (payload_len : Nat) : List Nat :=
  let packet := send_packet_raw addr cmd payload payload_len
  let escaped_packet := escape_packet MAX_ESCAPED_PACKET_SIZE packet packet.length
  if write_callback then [START] ++ escaped_packet else []

/-- Number of bytes the escaped form of `data` takes when nothing is cut off: two for a
delimiter or escape marker, one for any other byte. -/
def escaped_size (data : List Nat) : Nat :=
  (data.map (fun b => if b = START ∨ b = ESCAPE then 2 else 1)).sum

/-- The escape rule for one byte, in the words of the spec: a delimiter or escape marker
becomes the escape marker followed by the byte XOR the mask, any other byte is emitted
unchanged. -/
def escape_byte (b : Nat) : List Nat :=
  if b = START ∨ b = ESCAPE then [ESCAPE, b ^^^ ESCAPE_MASK] else [b]

/-- The escaped form of a byte sequence when nothing is cut off. -/
def escape_all : List Nat → List Nat
  | [] => []
  | b :: rest => escape_byte b ++ escape_all rest

/-! ## Parser and command queue -/

inductive ParserState where
  | WAIT_START
  | READ_ADDR
  | READ_CMD
  | READ_LEN
  | READ_PAYLOAD
  | READ_CHECKSUM
  deriving DecidableEq, Repr

/-- A decoded command; `payload` is the buffer `uint8_t payload[MAX_PAYLOAD_SIZE]`, of
which the first `payload_len` bytes are meaningful. -/
structure Command where
  cmd : Nat
  payload : List Nat
  payload_len : Nat
  deriving DecidableEq, Repr

instance : Inhabited Command := ⟨⟨0, [], 0⟩⟩

/-- The data members of `SerialParser`. -/
structure SerialParser where
  address : Nat
  state : ParserState
  cmd : Nat
  len : Nat
  len_bytes_read : Nat
  payload : List Nat
  payload_len : Nat
  checksum : Nat
  crc8_acc : Nat
  escape_next : Bool
  queue : List Command
  queue_head : Nat
  queue_tail : Nat
  queue_count : Nat
  deriving DecidableEq, Repr

/-- The call `memcpy(dst, src, n)` on buffers that both hold at least `n` bytes. -/
def memcpy (dst src : List Nat) (n : Nat) : List Nat :=
  src.take n ++ dst.drop n

namespace SerialParser

/-- The method `SerialParser::reset`. -/
def reset (p : SerialParser) : SerialParser :=
  { p with
    state := ParserState.WAIT_START
    payload_len := 0
    len := 0
    len_bytes_read := 0
    crc8_acc := 0x00
    escape_next := false }

/-- The method `SerialParser::enqueue_command`. -/
def enqueue_command (CMD_QUEUE_SIZE : Nat) (p : SerialParser) (cmd : Nat)
    (payload : List Nat) (payload_len : Nat) : SerialParser :=
  if p.queue_count < CMD_QUEUE_SIZE then
    { p with
      queue := p.queue.set p.queue_tail
        { cmd := cmd
          payload_len := payload_len
          payload := memcpy (p.queue.getD p.queue_tail default).payload payload payload_len }
      queue_tail := (p.queue_tail + 1) % CMD_QUEUE_SIZE
      queue_count := p.queue_count + 1 }
  else p

/-- The method `SerialParser::read`: the command the returned pointer refers to when the
call returns (`none` for `nullptr`) and the parser afterwards. -/
def read (CMD_QUEUE_SIZE : Nat) (p : SerialParser) : Option Command × SerialParser :=
  if p.queue_count = 0 then (none, p)
  else
    (some (p.queue.getD p.queue_head default),
     { p with
       queue_head := (p.queue_head + 1) % CMD_QUEUE_SIZE
       queue_count := p.queue_count - 1 })

/-- The method `SerialParser::validate`. -/
def validate (CMD_QUEUE_SIZE : Nat) (p : SerialParser) : SerialParser :=
  let p :=
    if p.crc8_acc = p.checksum then
      p.enqueue_command CMD_QUEUE_SIZE p.cmd p.payload p.payload_len
    else p
  { p with crc8_acc := 0x00 }

/-- The unescape rule inside `SerialParser::parse` (the body of
`if (state != ParserState::WAIT_START)`): the new value of `escape_next`, and the byte
that goes on to the `switch`, or `none` when the function returns early. -/
def unescape (escape_next : Bool) (byte : Nat) : Bool × Option Nat :=
  if escape_next then (false, some (byte ^^^ ESCAPE_MASK))
  else if byte = ESCAPE then (true, none)
  else (escape_next, some byte)

/-- The `switch (state)` of `SerialParser::parse`; `len` is a 16-bit field. -/
def dispatch (MAX_PAYLOAD_SIZE CMD_QUEUE_SIZE : Nat) (p : SerialParser) (byte : Nat) :
    SerialParser :=
  match p.state with
  | ParserState.READ_ADDR =>
    let p := { p with crc8_acc := update_crc8 p.crc8_acc byte }
    if byte = p.address ∨ byte = BROADCAST then { p with state := ParserState.READ_CMD }
    else p.reset
  | ParserState.READ_CMD =>
    { p with
      cmd := byte
      crc8_acc := update_crc8 p.crc8_acc byte
      state := ParserState.READ_LEN }
  | ParserState.READ_LEN =>
    if p.len_bytes_read = 0 then
      { p with
        len := byte
        crc8_acc := update_crc8 p.crc8_acc byte
        len_bytes_read := 1 }
    else
      let p :=
        { p with
          len := (p.len ||| (byte <<< 8)) % 65536
          crc8_acc := update_crc8 p.crc8_acc byte
          len_bytes_read := 0 }
      if p.len > 0 ∧ p.len ≤ MAX_PAYLOAD_SIZE then { p with state := ParserState.READ_PAYLOAD }
      else if p.len = 0 then { p with state := ParserState.READ_CHECKSUM }
      else p.reset
  | ParserState.READ_PAYLOAD =>
    let p := { p with crc8_acc := update_crc8 p.crc8_acc byte }
    let p :=
      if p.payload_len < p.len ∧ p.payload_len < MAX_PAYLOAD_SIZE then
        { p with
          payload := p.payload.set p.payload_len byte
          payload_len := p.payload_len + 1 }
      else p
    if p.payload_len ≥ p.len then { p with state := ParserState.READ_CHECKSUM } else p
  | ParserState.READ_CHECKSUM =>
    validate CMD_QUEUE_SIZE { p with checksum := byte, state := ParserState.WAIT_START }
  | ParserState.WAIT_START => p.reset

/-- The method `SerialParser::parse(byte)`. -/
def parse (MAX_PAYLOAD_SIZE CMD_QUEUE_SIZE : Nat) (p : SerialParser) (byte : Nat) :
    SerialParser :=
  if byte = START then { p.reset with state := ParserState.READ_ADDR }
  else
    let r := if p.state ≠ ParserState.WAIT_START then unescape p.escape_next byte
             else (p.escape_next, some byte)
    match r.2 with
    | none => { p with escape_next := r.1 }
    | some b => dispatch MAX_PAYLOAD_SIZE CMD_QUEUE_SIZE { p with escape_next := r.1 } b

/-- Feeding a byte stream to the parser, one `parse` call per byte, in order
(`SerialProtocol::feed` for each byte). -/
def feed (MAX_PAYLOAD_SIZE CMD_QUEUE_SIZE : Nat) (p : SerialParser) (bytes : List Nat) :
    SerialParser :=
  bytes.foldl (parse MAX_PAYLOAD_SIZE CMD_QUEUE_SIZE) p

/-- Modelled from the spec: the state of a newly constructed parser (the constructor is
in `SerialProtocol.h`, which is not part of the sources): `WaitStart` is the initial
state, the accumulators are zero and the queue is empty, with `CMD_QUEUE_SIZE` slots of
`MAX_PAYLOAD_SIZE` bytes each. -/
def init (MAX_PAYLOAD_SIZE CMD_QUEUE_SIZE : Nat) (address : Nat) : SerialParser :=
  { address := address
    state := ParserState.WAIT_START
    cmd := 0
    len := 0
    len_bytes_read := 0
    payload := List.replicate MAX_PAYLOAD_SIZE 0
    payload_len := 0
    checksum := 0
    crc8_acc := 0
    escape_next := false
    queue := List.replicate CMD_QUEUE_SIZE
      { cmd := 0, payload := List.replicate MAX_PAYLOAD_SIZE 0, payload_len := 0 }
    queue_head := 0
    queue_tail := 0
    queue_count := 0 }

/-- The unescape rule run over a whole byte stream: the final escape flag and the bytes
passed on, in order. -/
def unescape_stream : Bool → List Nat → Bool × List Nat
  | escape_next, [] => (escape_next, [])
  | escape_next, byte :: rest =>
    let r := unescape escape_next byte
    let t := unescape_stream r.1 rest
    (t.1, r.2.toList ++ t.2)

/-- The commands waiting in the ring buffer, oldest first: the `queue_count` slots from
`queue_head` on, wrapping modulo `CMD_QUEUE_SIZE`. -/
def pending (CMD_QUEUE_SIZE : Nat) (p : SerialParser) : List Command :=
  (List.range p.queue_count).map
    (fun i => p.queue.getD ((p.queue_head + i) % CMD_QUEUE_SIZE) default)

/-- The ring-buffer invariant of the command queue: `CMD_QUEUE_SIZE` slots, indices in
range, and `queue_tail` is `queue_count` slots after `queue_head`. -/
def queue_wf (CMD_QUEUE_SIZE : Nat) (p : SerialParser) : Prop :=
  p.queue.length = CMD_QUEUE_SIZE ∧ p.queue_head < CMD_QUEUE_SIZE ∧
  p.queue_count ≤ CMD_QUEUE_SIZE ∧
  p.queue_tail = (p.queue_head + p.queue_count) % CMD_QUEUE_SIZE

instance (CMD_QUEUE_SIZE : Nat) (p : SerialParser) : Decidable (queue_wf CMD_QUEUE_SIZE p) := by
  unfold queue_wf
  infer_instance

end SerialParser

/-- Successive `read()` calls, `n` of them: the returned commands in order, and the parser
afterwards. -/
def SerialParser.read_n (CMD_QUEUE_SIZE : Nat) :
    Nat → SerialParser → List (Option Command) × SerialParser
  | 0, p => ([], p)
  | n + 1, p =>
    let r := p.read CMD_QUEUE_SIZE
    let t := SerialParser.read_n CMD_QUEUE_SIZE n r.2
    (r.1 :: t.1, t.2)

/-- One call on the command queue: `enqueue_command(cmd, payload, payload_len)` or
`read()`. -/
inductive QueueOp where
  | enqueue (cmd : Nat) (payload : List Nat) (payload_len : Nat)
  | read
  deriving DecidableEq, Repr

/-- An `enqueue_command` call reads `payload_len` bytes that the caller's buffer holds. -/
def QueueOp.valid : QueueOp → Prop
  | QueueOp.enqueue _ payload payload_len => payload_len ≤ payload.length
  | QueueOp.read => True

instance (op : QueueOp) : Decidable op.valid := by
  cases op <;> unfold QueueOp.valid <;> infer_instance

/-- A sequence of queue calls run on the ring buffer: the parser afterwards and what the
`read()` calls returned, in order. -/
def SerialParser.run_ops (CMD_QUEUE_SIZE : Nat) :
    SerialParser → List QueueOp → SerialParser × List (Option Command)
  | p, [] => (p, [])
  | p, QueueOp.enqueue cmd payload payload_len :: ops =>
    SerialParser.run_ops CMD_QUEUE_SIZE
      (p.enqueue_command CMD_QUEUE_SIZE cmd payload payload_len) ops
  | p, QueueOp.read :: ops =>
    let r := p.read CMD_QUEUE_SIZE
    let t := SerialParser.run_ops CMD_QUEUE_SIZE r.2 ops
    (t.1, r.1 :: t.2)

/-- The bounded list of the FIFO claim, in its words: an enqueue appends when the list is
shorter than `CMD_QUEUE_SIZE`, a read removes and returns the first element (nothing when
the list is empty).  Returns the final list and the results of the reads, in order. -/
def bounded_list_ops (CMD_QUEUE_SIZE : Nat) :
    List (Nat × Nat × List Nat) → List QueueOp →
      List (Nat × Nat × List Nat) × List (Option (Nat × Nat × List Nat))
  | l, [] => (l, [])
  | l, QueueOp.enqueue cmd payload payload_len :: ops =>
    bounded_list_ops CMD_QUEUE_SIZE
      (if l.length < CMD_QUEUE_SIZE then l ++ [(cmd, payload_len, payload.take payload_len)]
       else l) ops
  | l, QueueOp.read :: ops =>
    let t := bounded_list_ops CMD_QUEUE_SIZE l.tail ops
    (t.1, l.head? :: t.2)

/-- What a command carries: its code, its payload length and the first `payload_len`
bytes of its payload buffer. -/
def Command.content (c : Command) : Nat × Nat × List Nat :=
  (c.cmd, c.payload_len, c.payload.take c.payload_len)

/-- The index of `payload` that `SerialParser::parse(byte)` writes
(`payload[payload_len++] = byte` in `READ_PAYLOAD`), or `none` when the call writes
nothing into the payload buffer. -/
def SerialParser.payload_write (MAX_PAYLOAD_SIZE : Nat) (p : SerialParser) (byte : Nat) :
    Option Nat :=
  if byte = START then none
  else
    let r := if p.state ≠ ParserState.WAIT_START then SerialParser.unescape p.escape_next byte
             else (p.escape_next, some byte)
    match r.2 with
    | none => none
    | some _ =>
      if p.state = ParserState.READ_PAYLOAD ∧ p.payload_len < p.len
          ∧ p.payload_len < MAX_PAYLOAD_SIZE then
        some p.payload_len
      else none

/-- The bounds the parser keeps on its payload bookkeeping: `payload_len` within the
buffer, a declared length within the buffer and not yet reached while in `READ_PAYLOAD`,
no payload byte stored before `READ_PAYLOAD`, and every queue slot within the bound. -/
def SerialParser.payload_bounded (MAX_PAYLOAD_SIZE : Nat) (p : SerialParser) : Prop :=
  p.payload_len ≤ MAX_PAYLOAD_SIZE ∧
  (p.state = ParserState.READ_PAYLOAD →
    0 < p.len ∧ p.len ≤ MAX_PAYLOAD_SIZE ∧ p.payload_len < p.len) ∧
  (p.state = ParserState.READ_ADDR ∨ p.state = ParserState.READ_CMD
      ∨ p.state = ParserState.READ_LEN → p.payload_len = 0) ∧
  (∀ c ∈ p.queue, c.payload_len ≤ MAX_PAYLOAD_SIZE)

namespace Byte.Address

def MASTER : Nat := 0x01
def ACTUATOR_1 : Nat := 0x02
def ACTUATOR_2 : Nat := 0x03
def ACTUATOR_3 : Nat := 0x04
def ACTUATOR_4 : Nat := 0x05
def ACTUATOR_5 : Nat := 0x06
def ACTUATOR_6 : Nat := 0x07
def TOOL : Nat := 0x08

end Byte.Address

/-- The function `Byte::mux_channel(address)`: the `switch` over the peer addresses, with
`default: return 0`. -/
def Byte.mux_channel (address : Nat) : Nat :=
  if address = Byte.Address.ACTUATOR_1 then 0
  else if address = Byte.Address.ACTUATOR_2 then 1
  else if address = Byte.Address.ACTUATOR_3 then 2
  else if address = Byte.Address.ACTUATOR_4 then 3
  else if address = Byte.Address.ACTUATOR_5 then 4
  else if address = Byte.Address.ACTUATOR_6 then 5
  else if address = Byte.Address.TOOL then 6
  else 0

namespace Byte.Command

def PING : Nat := 0x01
def HOME : Nat := 0x02
def POS : Nat := 0x03
def LOAD_TRAJ : Nat := 0x04
def EXEC_TRAJ : Nat := 0x05
def FINISHED : Nat := 0x06
def STATUS : Nat := 0x07
def ESTOP : Nat := 0x08
def ACK : Nat := 0xEE
def NACK : Nat := 0xFF

end Byte.Command

/-! ## Controller: status polling

`src/controller/main.cpp`.  The controller names the actuator-side command codes
`Byte::Command::Actuator::…`; they are the codes of `Byte::Command` in
`byte_definitions.h`.  The controller-side codes `Byte::Command::Controller::…`,
`SERIAL_PROTOCOL_TIMEOUT`, `readFloatLE`, the trajectory decoder and the position
serializer are not part of the sources and are parameters. -/

/-- The global `RobotStatus robot_status`: one status byte per actuator. -/
structure RobotStatus where
  actuator_1 : Nat
  actuator_2 : Nat
  actuator_3 : Nat
  actuator_4 : Nat
  deriving DecidableEq, Repr

/-- The global `RobotPosition robot_position`: one angle per actuator, of the type `F`
that `readFloatLE` returns. -/
structure RobotPosition (F : Type) where
  theta_1 : F
  theta_2 : F
  theta_3 : F
  theta_4 : F
  deriving DecidableEq, Repr

/-- The variables of `actuator_status_loop` and the globals it touches: the locals
`address`, `packet_sent`, `packet_timestamp`; whether the task holds
`actuator_com_mutex`; the channel selected on `mux`; the `(address, command)` pairs of the
`send_packet` calls made on `actuator_com`; `robot_status` and `robot_position`. -/
structure StatusLoop (F : Type) where
  address : Nat
  packet_sent : Bool
  packet_timestamp : Nat
  mutex_held : Bool
  mux : Nat
  sent : List (Nat × Nat)
  robot_status : RobotStatus
  robot_position : RobotPosition F
  deriving DecidableEq, Repr

/-- What one iteration of the loop observes: `millis()` when the request is stamped,
what `actuator_com.available()` returns after `read_actuator_com_serial()`, what
`actuator_com.read()` returns when it is called, and `millis()` in the timeout test. -/
structure LoopInput where
  send_millis : Nat
  available : Nat
  read : Option Command
  check_millis : Nat
  deriving DecidableEq, Repr

/-- The `if (!packet_sent)` block of `actuator_status_loop`, once `xSemaphoreTake` has
returned: select the channel, send the STATUS request, stamp it. -/
def status_loop_send {F : Type} (s : StatusLoop F) (i : LoopInput) : StatusLoop F :=
  if !s.packet_sent then
    { s with
      mutex_held := true
      mux := Byte.mux_channel s.address
      sent := s.sent ++ [(s.address, Byte.Command.STATUS)]
      packet_sent := true
      packet_timestamp := i.send_millis }
  else s

/-- The body of `if (cmd && cmd->cmd == STATUS)` in `actuator_status_loop`: the `switch`
over `address`, then `xSemaphoreGive` and `packet_sent = false`. -/
def status_loop_reply {F : Type} (readFloatLE : List Nat → F) (s : StatusLoop F)
    (cmd : Command) : StatusLoop F :=
  let s :=
    if s.address = Byte.Address.ACTUATOR_1 then
      { s with
        robot_status := { s.robot_status with actuator_1 := cmd.payload.getD 0 0 }
        robot_position := { s.robot_position with theta_1 := readFloatLE (cmd.payload.drop 1) }
        address := Byte.Address.ACTUATOR_2 }
    else if s.address = Byte.Address.ACTUATOR_2 then
      { s with
        robot_status := { s.robot_status with actuator_2 := cmd.payload.getD 0 0 }
        robot_position := { s.robot_position with theta_2 := readFloatLE (cmd.payload.drop 1) }
        address := Byte.Address.ACTUATOR_3 }
    else if s.address = Byte.Address.ACTUATOR_3 then
      { s with
        robot_status := { s.robot_status with actuator_3 := cmd.payload.getD 0 0 }
        robot_position := { s.robot_position with theta_3 := readFloatLE (cmd.payload.drop 1) }
        address := Byte.Address.ACTUATOR_4 }
    else if s.address = Byte.Address.ACTUATOR_4 then
      { s with
        robot_status := { s.robot_status with actuator_4 := cmd.payload.getD 0 0 }
        robot_position := { s.robot_position with theta_4 := readFloatLE (cmd.payload.drop 1) }
        address := Byte.Address.ACTUATOR_1 }
    else s
  { s with mutex_held := false, packet_sent := false }

/-- The `else if (millis() - packet_timestamp > SERIAL_PROTOCOL_TIMEOUT)` block of
`actuator_status_loop`: after the diagnostic, `packet_sent = false` and
`xSemaphoreGive`. -/
def status_loop_timeout {F : Type} (s : StatusLoop F) : StatusLoop F :=
  { s with packet_sent := false, mutex_held := false }

/-- One iteration of the `for (;;)` of `actuator_status_loop`.  `millis()` is a 32-bit
`unsigned long`, so the elapsed time is taken modulo `2^32`. -/
def actuator_status_loop_step {F : Type} (SERIAL_PROTOCOL_TIMEOUT : Nat)
    (readFloatLE : List Nat → F) (s : StatusLoop F) (i : LoopInput) : StatusLoop F :=
  let s := status_loop_send s i
  if i.available ≠ 0 then
    match i.read with
    | some cmd =>
      if cmd.cmd = Byte.Command.STATUS then status_loop_reply readFloatLE s cmd else s
    | none => s
  else if (i.check_millis + 2 ^ 32 - s.packet_timestamp) % 2 ^ 32 > SERIAL_PROTOCOL_TIMEOUT then
    status_loop_timeout s
  else s

/-- The loop run over a sequence of iterations. -/
def actuator_status_loop {F : Type} (SERIAL_PROTOCOL_TIMEOUT : Nat)
    (readFloatLE : List Nat → F) (s : StatusLoop F) (inputs : List LoopInput) : StatusLoop F :=
  inputs.foldl (actuator_status_loop_step SERIAL_PROTOCOL_TIMEOUT readFloatLE) s

/-! ## Controller: composite operations and command dispatch -/

/-- The function `estop()`: the `&&` chain over the four actuators.  The per-peer
`estop(addr)` is the parameter `estop_peer`, a transaction on the state `σ` of the bus
and the peers that returns success or failure. -/
def estop {σ : Type} (estop_peer : Nat → σ → Bool × σ) (w : σ) : Bool × σ :=
  let r1 := estop_peer Byte.Address.ACTUATOR_1 w
  if r1.1 then
    let r2 := estop_peer Byte.Address.ACTUATOR_2 r1.2
    if r2.1 then
      let r3 := estop_peer Byte.Address.ACTUATOR_3 r2.2
      if r3.1 then estop_peer Byte.Address.ACTUATOR_4 r3.2
      else (false, r3.2)
    else (false, r2.2)
  else (false, r1.2)

/-- The parts of a `RobotTrajectory` that `load_traj` reads. -/
structure RobotTrajectory (A : Type) where
  actuator_1 : A
  actuator_2 : A
  actuator_3 : A
  actuator_4 : A

/-- The function `load_traj(RobotTrajectory &)`: the `&&` chain over the four actuators,
with the per-peer `load_traj(addr, trajectory)` as the parameter `load_traj_peer`. -/
def load_traj {σ A : Type} (load_traj_peer : Nat → A → σ → Bool × σ)
    (trajectory : RobotTrajectory A) (w : σ) : Bool × σ :=
  let r1 := load_traj_peer Byte.Address.ACTUATOR_1 trajectory.actuator_1 w
  if r1.1 then
    let r2 := load_traj_peer Byte.Address.ACTUATOR_2 trajectory.actuator_2 r1.2
    if r2.1 then
      let r3 := load_traj_peer Byte.Address.ACTUATOR_3 trajectory.actuator_3 r2.2
      if r3.1 then load_traj_peer Byte.Address.ACTUATOR_4 trajectory.actuator_4 r3.2
      else (false, r3.2)
    else (false, r2.2)
  else (false, r1.2)

/-- The command codes of `Byte::Command::Controller`. -/
structure ControllerCodes where
  ESTOP : Nat
  POS : Nat
  TRAJ : Nat
  ACK : Nat
  NACK : Nat
  deriving DecidableEq, Repr

/-- What `parse_cmd` acts on: the state `σ` of the bus and the peers, and the
`send_packet` calls it makes itself, on `actuator_com` as `(address, command)` and on
`client_com` as `(address, command, payload)`. -/
structure Controller (σ : Type) where
  peers : σ
  actuator_sent : List (Nat × Nat)
  client_sent : List (Nat × Nat × List Nat)

/-- The function `parse_cmd(cmd, payload, payload_len)`.  The `switch` is an `if` chain
(its case labels are distinct); `decode` is the constructor
`RobotTrajectory(payload, payload_len)` and `position` is what
`robot_position.serialize` writes. -/
def parse_cmd {σ A : Type} (codes : ControllerCodes)
    (estop_peer : Nat → σ → Bool × σ) (load_traj_peer : Nat → A → σ → Bool × σ)
    (decode : List Nat → Nat → RobotTrajectory A) (position : List Nat)
    (cmd : Nat) (payload : List Nat) (payload_len : Nat) (w : Controller σ) : Controller σ :=
  if cmd = codes.ESTOP then
    let result := estop estop_peer w.peers
    let response := if result.1 then codes.ACK else codes.NACK
    { w with
      peers := result.2
      client_sent := w.client_sent ++ [(Byte.Address.BROADCAST, response, [])] }
  else if cmd = codes.POS then
    { w with
      client_sent := w.client_sent ++ [(Byte.Address.BROADCAST, codes.POS, position.take 24)] }
  else if cmd = codes.TRAJ then
    let trajectory := decode payload payload_len
    let result := load_traj load_traj_peer trajectory w.peers
    if result.1 then
      { w with
        peers := result.2
        actuator_sent := w.actuator_sent ++ [(Byte.Address.BROADCAST, Byte.Command.EXEC_TRAJ)]
        client_sent := w.client_sent ++ [(Byte.Address.BROADCAST, codes.ACK, [])] }
    else
      { w with
        peers := result.2
        client_sent := w.client_sent ++ [(Byte.Address.BROADCAST, codes.NACK, [])] }
  else w

/-- A sequence of transactions run in order up to and including the first that fails:
success when none fails, and the state afterwards. -/
def until_first_failure {σ : Type} : List (σ → Bool × σ) → σ → Bool × σ
  | [], w => (true, w)
  | call :: rest, w =>
    let r := call w
    if r.1 then until_first_failure rest r.2 else (false, r.2)

set_option maxRecDepth 100000

/-! ## CRC8: incremental and one-shot forms -/

theorem update_crc8_rounds_eq (n crc : Nat) : update_crc8_rounds n crc = crc8_rounds n crc := by
  induction n generalizing crc with
  | zero => rfl
  | succ n ih => simp only [update_crc8_rounds, crc8_rounds, ih]

theorem crc8_loop_eq_foldl (d : List Nat) (crc : Nat) :
    crc8_loop d crc = d.foldl update_crc8 crc := by
  induction d generalizing crc with
  | nil => rfl
  | cons b rest ih =>
    simp only [crc8_loop, List.foldl_cons, update_crc8, update_crc8_rounds_eq, ih]

theorem crc8_eq_foldl (d : List Nat) : crc8 d d.length = d.foldl update_crc8 0 := by
  simp only [crc8, List.take_length, crc8_loop_eq_foldl]

/-- C5: folding `SerialParser::update_crc8` over a byte sequence from accumulator `0x00`
gives the same value as the one-shot `SerialProtocol::crc8` of that sequence. -/
theorem crc8_incremental_eq_oneshot (d : List Nat) :
    d.foldl update_crc8 0x00 = crc8 d d.length :=
  (crc8_eq_foldl d).symm

/-! ## CRC8 as a polynomial remainder -/

theorem shiftLeft_xor (a b k : Nat) : (a ^^^ b) <<< k = (a <<< k) ^^^ (b <<< k) := by
  apply Nat.eq_of_testBit_eq
  intro i
  simp only [Nat.testBit_shiftLeft, Nat.testBit_xor]
  by_cases h : k ≤ i <;> simp [h]

theorem clmul_step (q g : Nat) :
    clmul q g = (clmul (q / 2) g <<< 1) ^^^ (q % 2 * g) := by
  rcases Nat.eq_zero_or_pos q with h | h
  · subst h; simp [clmul]
  · unfold clmul
    rw [Nat.digits_def' (by norm_num) h]
    simp

theorem clmul_bit (q bit g : Nat) (hbit : bit < 2) :
    clmul (2 * q + bit) g = (clmul q g <<< 1) ^^^ (bit * g) := by
  rw [clmul_step (2 * q + bit) g]
  have h1 : (2 * q + bit) / 2 = q := by omega
  have h2 : (2 * q + bit) % 2 = bit := by omega
  rw [h1, h2]

theorem crc8_round_lt (t : Nat) :
    (if t &&& 0x80 ≠ 0 then ((t <<< 1) ^^^ CRC8_POLY) % 256 else (t <<< 1) % 256) < 256 := by
  split <;> exact Nat.mod_lt _ (by norm_num)

theorem crc8_round_poly : ∀ t, t < 256 →
    (if t &&& 0x80 ≠ 0 then ((t <<< 1) ^^^ CRC8_POLY) % 256 else (t <<< 1) % 256)
      = (t <<< 1) ^^^ (t / 128 * crc8Generator) := by
  decide

theorem crc8_rounds_lt (n t : Nat) (ht : t < 256) : crc8_rounds n t < 256 := by
  induction n generalizing t with
  | zero => exact ht
  | succ n ih => exact ih _ (crc8_round_lt t)

theorem crc8_rounds_poly (k : Nat) : ∀ t q, t < 256 →
    ∃ q2, (clmul q crc8Generator <<< k) ^^^ (t <<< k)
      = clmul q2 crc8Generator ^^^ crc8_rounds k t := by
  induction k with
  | zero => intro t q _; exact ⟨q, by simp [crc8_rounds]⟩
  | succ k ih =>
    intro t q ht
    obtain ⟨q2, h2⟩ := ih _ (2 * q + t / 128) (crc8_round_lt t)
    refine ⟨q2, ?_⟩
    simp only [crc8_rounds]
    rw [← h2, clmul_bit q (t / 128) _ (by omega)]
    rw [crc8_round_poly t ht]
    simp only [Nat.add_comm k 1, Nat.shiftLeft_add, shiftLeft_xor]
    generalize (clmul q crc8Generator <<< 1) <<< k = A
    generalize (t <<< 1) <<< k = B
    generalize (t / 128 * crc8Generator) <<< k = C
    rw [Nat.xor_assoc A C, ← Nat.xor_assoc C B C, Nat.xor_comm C B, Nat.xor_assoc B C C,
      Nat.xor_self, Nat.xor_zero]

theorem crc8_loop_lt (d : List Nat) (crc : Nat) (hcrc : crc < 256)
    (hd : ∀ b ∈ d, b < 256) : crc8_loop d crc < 256 := by
  induction d generalizing crc with
  | nil => exact hcrc
  | cons b rest ih =>
    have hb : b < 256 := hd b (List.mem_cons_self _ _)
    exact ih _ (crc8_rounds_lt 8 _ (Nat.xor_lt_two_pow (n := 8) hcrc hb))
      (fun x hx => hd x (List.mem_cons_of_mem _ hx))

theorem crc8_lt (d : List Nat) (hd : ∀ b ∈ d, b < 256) : crc8 d d.length < 256 := by
  simp only [crc8, List.take_length]
  exact crc8_loop_lt d 0 (by norm_num) hd

theorem crc8_loop_poly (d : List Nat) : ∀ m crc q, crc < 256 → (∀ b ∈ d, b < 256) →
    m <<< 8 = clmul q crc8Generator ^^^ crc →
    ∃ q2, (d.foldl (fun m b => (m <<< 8) ^^^ b) m) <<< 8
      = clmul q2 crc8Generator ^^^ crc8_loop d crc := by
  induction d with
  | nil => intro m crc q _ _ h; exact ⟨q, h⟩
  | cons b rest ih =>
    intro m crc q hcrc hd h
    have hb : b < 256 := hd b (List.mem_cons_self _ _)
    have ht : crc ^^^ b < 256 := Nat.xor_lt_two_pow (n := 8) hcrc hb
    obtain ⟨q1, h1⟩ := crc8_rounds_poly 8 (crc ^^^ b) q ht
    simp only [List.foldl_cons, crc8_loop]
    refine ih _ _ q1 (crc8_rounds_lt 8 _ ht) (fun x hx => hd x (List.mem_cons_of_mem _ hx)) ?_
    rw [← h1, shiftLeft_xor, h, shiftLeft_xor, shiftLeft_xor, Nat.xor_assoc]

theorem clmul_zero (g : Nat) : clmul 0 g = 0 := by
  simp [clmul]

theorem clmul_xor (a : Nat) : ∀ b g, clmul (a ^^^ b) g = clmul a g ^^^ clmul b g := by
  induction a using Nat.strong_induction_on with
  | _ a ih =>
    intro b g
    rcases Nat.eq_zero_or_pos a with h | h
    · subst h; simp [clmul_zero]
    · rw [clmul_step (a ^^^ b) g, clmul_step a g, clmul_step b g, Nat.xor_div_two,
        ih (a / 2) (by omega) (b / 2) g, shiftLeft_xor, Nat.xor_mod_two_eq]
      have hbit : (a + b) % 2 * g = (a % 2 * g) ^^^ (b % 2 * g) := by
        rcases Nat.mod_two_eq_zero_or_one a with ha | ha <;>
          rcases Nat.mod_two_eq_zero_or_one b with hb | hb
        · have : (a + b) % 2 = 0 := by omega
          simp [ha, hb, this]
        · have : (a + b) % 2 = 1 := by omega
          simp [ha, hb, this]
        · have : (a + b) % 2 = 1 := by omega
          simp [ha, hb, this]
        · have : (a + b) % 2 = 0 := by omega
          simp [ha, hb, this]
      rw [hbit]
      ac_rfl

theorem xor_ge_of_lt {a b n : Nat} (ha : 2 ^ n ≤ a) (hb : b < 2 ^ n) : 2 ^ n ≤ a ^^^ b := by
  by_contra hlt
  have h1 : a ^^^ b < 2 ^ n := Nat.lt_of_not_le hlt
  have h2 : (a ^^^ b) ^^^ b < 2 ^ n := Nat.xor_lt_two_pow h1 hb
  rw [Nat.xor_cancel_right] at h2
  omega

theorem clmul_generator_ge (q : Nat) : 0 < q → 256 ≤ clmul q crc8Generator := by
  induction q using Nat.strong_induction_on with
  | _ q ih =>
    intro hq
    rw [clmul_step]
    rcases Nat.eq_zero_or_pos (q / 2) with h | h
    · have hq1 : q % 2 = 1 := by omega
      rw [h, hq1, clmul_zero]
      decide
    · have hX := ih (q / 2) (by omega) h
      have hs : 2 ^ 9 ≤ clmul (q / 2) crc8Generator <<< 1 := by
        rw [Nat.shiftLeft_eq]; omega
      have hbit : q % 2 * crc8Generator < 2 ^ 9 := by
        rcases Nat.mod_two_eq_zero_or_one q with hb | hb <;> rw [hb] <;> decide
      have := xor_ge_of_lt hs hbit
      omega

theorem clmul_remainder_unique {q1 q2 r1 r2 : Nat} (h1 : r1 < 256) (h2 : r2 < 256)
    (h : clmul q1 crc8Generator ^^^ r1 = clmul q2 crc8Generator ^^^ r2) : r1 = r2 := by
  have hA : clmul q1 crc8Generator = (clmul q2 crc8Generator ^^^ r2) ^^^ r1 := by
    rw [← h, Nat.xor_cancel_right]
  have hq : clmul (q1 ^^^ q2) crc8Generator = r2 ^^^ r1 := by
    rw [clmul_xor, hA]
    generalize clmul q2 crc8Generator = B
    rw [Nat.xor_comm (B ^^^ r2 ^^^ r1) B, ← Nat.xor_assoc, ← Nat.xor_assoc, Nat.xor_self,
      Nat.zero_xor]
  have hlt : r2 ^^^ r1 < 256 := Nat.xor_lt_two_pow (n := 8) h2 h1
  have hz : q1 ^^^ q2 = 0 := by
    rcases Nat.eq_zero_or_pos (q1 ^^^ q2) with hz | hz
    · exact hz
    · have := clmul_generator_ge _ hz
      omega
  have hqq : q1 = q2 := Nat.xor_eq_zero.mp hz
  subst hqq
  exact Nat.xor_right_injective h

/-- C6: `crc8` is the CRC-8 with generator `x^8 + x^2 + x + 1`, initial value `0x00`, no
reflection and no final XOR: for a byte sequence `d`, `crc8 d` has degree below 8 and is
the one polynomial `r` of degree below 8 with `M(x) * x^8 = q * g + r` for some `q`, where
`M` is the message polynomial, bytes most significant first; `crc8` of the empty
sequence is `0x00` and `crc8` of the ASCII bytes of "123456789" is `0xF4`. -/
theorem crc8_is_polynomial_remainder (d : List Nat) (hd : ∀ b ∈ d, b < 256) :
    crc8 d d.length < 256 ∧
    (∀ r, r < 256 →
      ((∃ q, msgPoly d <<< 8 = clmul q crc8Generator ^^^ r) ↔ r = crc8 d d.length)) ∧
    crc8 [] 0 = 0x00 ∧
    crc8 [0x31, 0x32, 0x33, 0x34, 0x35, 0x36, 0x37, 0x38, 0x39] 9 = 0xF4 := by
  have hlt := crc8_lt d hd
  have hex : ∃ q, msgPoly d <<< 8 = clmul q crc8Generator ^^^ crc8 d d.length := by
    simp only [crc8, List.take_length, msgPoly]
    exact crc8_loop_poly d 0 0 0 (by norm_num) hd (by simp [clmul_zero])
  refine ⟨hlt, ?_, by decide, by decide⟩
  intro r hr
  constructor
  · rintro ⟨q, hq⟩
    obtain ⟨q0, hq0⟩ := hex
    exact clmul_remainder_unique hr hlt (hq.symm.trans hq0)
  · rintro rfl
    exact hex

theorem crc8_is_polynomial_remainder_witness :
    (∀ b ∈ [0x31, 0x32, 0x33], b < 256) ∧
    crc8 [0x31, 0x32, 0x33] 3 < 256 ∧
    (∀ r, r < 256 →
      ((∃ q, msgPoly [0x31, 0x32, 0x33] <<< 8 = clmul q crc8Generator ^^^ r)
        ↔ r = crc8 [0x31, 0x32, 0x33] 3)) :=
  ⟨by decide,
   (crc8_is_polynomial_remainder [0x31, 0x32, 0x33] (by decide)).1,
   (crc8_is_polynomial_remainder [0x31, 0x32, 0x33] (by decide)).2.1⟩

/-! ## Framing codec -/

theorem escape_all_append (xs ys : List Nat) :
    escape_all (xs ++ ys) = escape_all xs ++ escape_all ys := by
  induction xs with
  | nil => rfl
  | cons b rest ih =>
    show escape_byte b ++ escape_all (rest ++ ys)
      = escape_byte b ++ escape_all rest ++ escape_all ys
    rw [ih, List.append_assoc]

theorem escape_byte_length (b : Nat) :
    (escape_byte b).length = if b = START ∨ b = ESCAPE then 2 else 1 := by
  unfold escape_byte
  split <;> rfl

theorem escape_all_length (d : List Nat) : (escape_all d).length = escaped_size d := by
  induction d with
  | nil => rfl
  | cons b rest ih =>
    simp only [escape_all, List.length_append, ih, escape_byte_length, escaped_size,
      List.map_cons, List.sum_cons]

/-- The loop writes the escaped form of a prefix of its input after what was there. -/
theorem escape_packet_loop_takes (MAX : Nat) (rest : List Nat) :
    ∀ out, ∃ k, escape_packet_loop MAX rest out = out ++ escape_all (rest.take k) := by
  induction rest with
  | nil => intro out; exact ⟨0, by simp [escape_packet_loop, escape_all]⟩
  | cons b rest ih =>
    intro out
    unfold escape_packet_loop
    by_cases hb : b = START ∨ b = ESCAPE
    · rw [if_pos hb]
      split
      · exact ⟨0, by simp [escape_all]⟩
      · obtain ⟨k, hk⟩ := ih (out ++ [ESCAPE, b ^^^ ESCAPE_MASK])
        exact ⟨k + 1, by
          rw [hk]; simp [List.take_succ_cons, escape_all, escape_byte, hb]⟩
    · rw [if_neg hb]
      split
      · exact ⟨0, by simp [escape_all]⟩
      · obtain ⟨k, hk⟩ := ih (out ++ [b])
        exact ⟨k + 1, by
          rw [hk]; simp [List.take_succ_cons, escape_all, escape_byte, hb]⟩

/-- When the escaped form fits the buffer, the loop writes all of it. -/
theorem escape_packet_loop_fits (MAX : Nat) (rest : List Nat) :
    ∀ out, out.length + escaped_size rest ≤ MAX →
      escape_packet_loop MAX rest out = out ++ escape_all rest := by
  induction rest with
  | nil => intro out _; simp [escape_packet_loop, escape_all]
  | cons b rest ih =>
    intro out hfit
    unfold escape_packet_loop
    simp only [escaped_size, List.map_cons, List.sum_cons] at hfit
    have hsz : escaped_size rest
        = (rest.map (fun b => if b = START ∨ b = ESCAPE then 2 else 1)).sum := rfl
    rw [← hsz] at hfit
    by_cases hb : b = START ∨ b = ESCAPE
    · rw [if_pos hb] at hfit
      rw [if_pos hb, if_neg (by omega), ih _ (by simp; omega)]
      simp [escape_all, escape_byte, hb]
    · rw [if_neg hb] at hfit
      rw [if_neg hb, if_neg (by omega), ih _ (by simp; omega)]
      simp [escape_all, escape_byte, hb]

theorem escape_packet_fits (MAX : Nat) (d : List Nat) (h : escaped_size d ≤ MAX) :
    escape_packet MAX d d.length = escape_all d := by
  unfold escape_packet
  rw [List.take_length, escape_packet_loop_fits MAX d [] (by simpa using h)]
  rfl

theorem escape_all_no_start (d : List Nat) : START ∉ escape_all d := by
  induction d with
  | nil => simp [escape_all]
  | cons b rest ih =>
    simp only [escape_all, List.mem_append, not_or]
    refine ⟨?_, ih⟩
    unfold escape_byte
    split
    · rename_i hb
      rcases hb with hb | hb <;> subst hb <;> decide
    · rename_i hb
      simp only [List.mem_singleton]
      exact fun h => hb (Or.inl h.symm)

theorem escape_all_marker (d : List Nat) : ∀ i, (escape_all d)[i]? = some ESCAPE →
    (escape_all d)[i + 1]? = some 0x8A ∨ (escape_all d)[i + 1]? = some 0x8B := by
  induction d with
  | nil => intro i h; simp [escape_all] at h
  | cons b rest ih =>
    intro i h
    simp only [escape_all, escape_byte] at h ⊢
    by_cases hb : b = START ∨ b = ESCAPE
    · rw [if_pos hb] at h ⊢
      match i with
      | 0 => rcases hb with hb | hb <;> subst hb <;> simp [START, ESCAPE, ESCAPE_MASK]
      | 1 =>
        exfalso
        rcases hb with hb | hb <;> subst hb <;> simp [START, ESCAPE, ESCAPE_MASK] at h
      | j + 2 =>
        have h2 : (escape_all rest)[j]? = some ESCAPE := by simpa using h
        have := ih j h2
        simpa using this
    · rw [if_neg hb] at h ⊢
      match i with
      | 0 =>
        exfalso
        simp only [List.singleton_append, List.getElem?_cons_zero, Option.some.injEq] at h
        exact hb (Or.inr h)
      | j + 1 =>
        have h2 : (escape_all rest)[j]? = some ESCAPE := by simpa using h
        have := ih j h2
        simpa using this

/-- C3: the output of `escape_packet` never contains the delimiter `0xAA`, every `0xAB` in
it is immediately followed by `0x8A` or `0x8B`, and so the only `0xAA` in a stream
written by `send_packet` is its first byte. -/
theorem escape_packet_output_has_no_delimiter (MAX_ESCAPED_PACKET_SIZE : Nat)
    (d : List Nat) (len : Nat) :
    START ∉ escape_packet MAX_ESCAPED_PACKET_SIZE d len ∧
    (∀ i, (escape_packet MAX_ESCAPED_PACKET_SIZE d len)[i]? = some ESCAPE →
      (escape_packet MAX_ESCAPED_PACKET_SIZE d len)[i + 1]? = some 0x8A ∨
      (escape_packet MAX_ESCAPED_PACKET_SIZE d len)[i + 1]? = some 0x8B) ∧
    (∀ (write_callback : Bool) (addr cmd payload_len : Nat) (payload : Option (List Nat))
      (i : Nat),
      (send_packet MAX_ESCAPED_PACKET_SIZE write_callback addr cmd payload payload_len)[i]?
        = some START → i = 0) := by
  have key : ∀ (x : List Nat) (n : Nat), ∃ y, escape_packet MAX_ESCAPED_PACKET_SIZE x n
      = escape_all y := by
    intro x n
    obtain ⟨k, hk⟩ := escape_packet_loop_takes MAX_ESCAPED_PACKET_SIZE (x.take n) []
    exact ⟨(x.take n).take k, by simpa [escape_packet] using hk⟩
  refine ⟨?_, ?_, ?_⟩
  · obtain ⟨y, hy⟩ := key d len
    rw [hy]; exact escape_all_no_start y
  · obtain ⟨y, hy⟩ := key d len
    rw [hy]; exact escape_all_marker y
  · intro wc addr cmd payload_len payload i h
    unfold send_packet at h
    cases wc with
    | false => simp at h
    | true =>
      simp only [if_true] at h
      match i with
      | 0 => rfl
      | j + 1 =>
        exfalso
        obtain ⟨y, hy⟩ := key (send_packet_raw addr cmd payload payload_len)
          (send_packet_raw addr cmd payload payload_len).length
        rw [hy] at h
        have hmem : START ∈ escape_all y := by
          have h2 : (escape_all y)[j]? = some START := by simpa using h
          exact List.getElem?_mem h2
        exact escape_all_no_start y hmem

theorem unescape_stream_escape_all (d : List Nat) (tail : List Nat) :
    SerialParser.unescape_stream false (escape_all d ++ tail)
      = ((SerialParser.unescape_stream false tail).1,
         d ++ (SerialParser.unescape_stream false tail).2) := by
  induction d with
  | nil => simp [escape_all]
  | cons b rest ih =>
    simp only [escape_all, escape_byte]
    by_cases hb : b = START ∨ b = ESCAPE
    · rw [if_pos hb]
      have hx : (b ^^^ ESCAPE_MASK) ^^^ ESCAPE_MASK = b := Nat.xor_cancel_right _ _
      simp [SerialParser.unescape_stream, SerialParser.unescape, ih, hx]
    · rw [if_neg hb]
      have hne : b ≠ ESCAPE := fun h => hb (Or.inr h)
      simp [SerialParser.unescape_stream, SerialParser.unescape, ih, hne]

/-- C4: escape-then-unescape is the identity: when the escaped form of `d` fits
`MAX_ESCAPED_PACKET_SIZE`, running the parser's unescape rule over `escape_packet d`
from a clear escape flag yields exactly `d` and leaves the flag clear. -/
theorem unescape_escape_packet (MAX_ESCAPED_PACKET_SIZE : Nat) (d : List Nat)
    (hfit : escaped_size d ≤ MAX_ESCAPED_PACKET_SIZE) :
    SerialParser.unescape_stream false (escape_packet MAX_ESCAPED_PACKET_SIZE d d.length)
      = (false, d) := by
  rw [escape_packet_fits _ d hfit]
  have := unescape_stream_escape_all d []
  simpa [SerialParser.unescape_stream] using this

theorem unescape_escape_packet_witness :
    escaped_size [0x01, 0xAA, 0xAB, 0x07] ≤ 6 ∧
    SerialParser.unescape_stream false (escape_packet 6 [0x01, 0xAA, 0xAB, 0x07] 4)
      = (false, [0x01, 0xAA, 0xAB, 0x07]) :=
  ⟨by decide, unescape_escape_packet 6 [0x01, 0xAA, 0xAB, 0x07] (by decide)⟩

/-! ## Packet serializer -/

theorem send_packet_raw_some (a c : Nat) (p : List Nat) (hlen : p.length < 65536) :
    send_packet_raw a c (some p) p.length
      = ([a, c, p.length % 256, p.length / 256] ++ p)
        ++ [crc8 ([a, c, p.length % 256, p.length / 256] ++ p)
              ([a, c, p.length % 256, p.length / 256] ++ p).length] := by
  have hhi : p.length / 256 % 256 = p.length / 256 := Nat.mod_eq_of_lt (by omega)
  unfold send_packet_raw writeUint16LE
  rw [hhi]
  cases p with
  | nil => simp
  | cons x xs => simp

/-- C2: wire format.  For a non-null payload `p` (of a length a `uint16_t` holds),
`send_packet` writes `[0xAA]` followed by `escape_packet` applied to `B ++ [crc8 B]`,
where `B = [a, c, |p| mod 256, |p| div 256] ++ p`; when the escaped form fits the buffer
this is the escaped form of every byte of `B ++ [crc8 B]`.  For address `0x02`, command
`0x03` and payload `01 AA 07` the stream is `AA 02 03 03 00 01 AB 8A 07` followed by the
escaped `crc8` of `02 03 03 00 01 AA 07`. -/
theorem send_packet_wire_format (MAX_ESCAPED_PACKET_SIZE : Nat) (a c : Nat) (p : List Nat)
    (hlen : p.length < 65536) :
    send_packet MAX_ESCAPED_PACKET_SIZE true a c (some p) p.length
      = [START] ++ escape_packet MAX_ESCAPED_PACKET_SIZE
          (([a, c, p.length % 256, p.length / 256] ++ p)
            ++ [crc8 ([a, c, p.length % 256, p.length / 256] ++ p)
                  ([a, c, p.length % 256, p.length / 256] ++ p).length])
          (([a, c, p.length % 256, p.length / 256] ++ p).length + 1) ∧
    (escaped_size (([a, c, p.length % 256, p.length / 256] ++ p)
        ++ [crc8 ([a, c, p.length % 256, p.length / 256] ++ p)
              ([a, c, p.length % 256, p.length / 256] ++ p).length])
        ≤ MAX_ESCAPED_PACKET_SIZE →
      send_packet MAX_ESCAPED_PACKET_SIZE true a c (some p) p.length
        = [START] ++ escape_all (([a, c, p.length % 256, p.length / 256] ++ p)
            ++ [crc8 ([a, c, p.length % 256, p.length / 256] ++ p)
                  ([a, c, p.length % 256, p.length / 256] ++ p).length])) ∧
    (10 ≤ MAX_ESCAPED_PACKET_SIZE →
      send_packet MAX_ESCAPED_PACKET_SIZE true 0x02 0x03 (some [0x01, 0xAA, 0x07]) 3
        = [0xAA, 0x02, 0x03, 0x03, 0x00, 0x01, 0xAB, 0x8A, 0x07]
          ++ escape_byte (crc8 [0x02, 0x03, 0x03, 0x00, 0x01, 0xAA, 0x07] 7)) := by
  refine ⟨?_, ?_, ?_⟩
  · unfold send_packet
    simp only [if_true, send_packet_raw_some a c p hlen, List.length_append,
      List.length_singleton]
  · intro hfit
    unfold send_packet
    simp only [if_true, send_packet_raw_some a c p hlen]
    rw [escape_packet_fits _ _ hfit]
  · intro hmax
    unfold send_packet
    have hraw : send_packet_raw 0x02 0x03 (some [0x01, 0xAA, 0x07]) 3
        = [0x02, 0x03, 0x03, 0x00, 0x01, 0xAA, 0x07, 0x80] := by decide
    have hcrc : crc8 [0x02, 0x03, 0x03, 0x00, 0x01, 0xAA, 0x07] 7 = 0x80 := by decide
    rw [hraw, hcrc, if_pos rfl, escape_packet_fits _ _ (by
      have : escaped_size [0x02, 0x03, 0x03, 0x00, 0x01, 0xAA, 0x07, 0x80] = 9 := by decide
      omega)]
    decide

theorem send_packet_wire_format_witness :
    [0x01, 0xAA, 0x07].length < 65536 ∧
    send_packet 16 true 0x02 0x03 (some [0x01, 0xAA, 0x07]) [0x01, 0xAA, 0x07].length
      = [0xAA, 0x02, 0x03, 0x03, 0x00, 0x01, 0xAB, 0x8A, 0x07, 0x80] :=
  ⟨by decide,
   ((send_packet_wire_format 16 0x02 0x03 [0x01, 0xAA, 0x07] (by decide)).2.1
      (by decide)).trans (by decide)⟩

/-! ## Parser: feeding bytes -/

namespace SerialParser

theorem feed_cons (MP QS : Nat) (p : SerialParser) (b : Nat) (bs : List Nat) :
    feed MP QS p (b :: bs) = feed MP QS (parse MP QS p b) bs := rfl

theorem feed_append (MP QS : Nat) (p : SerialParser) (xs ys : List Nat) :
    feed MP QS p (xs ++ ys) = feed MP QS (feed MP QS p xs) ys := by
  simp only [feed, List.foldl_append]

theorem parse_start (MP QS : Nat) (p : SerialParser) :
    parse MP QS p START = { p.reset with state := ParserState.READ_ADDR } := by
  simp [parse]

/-- An escaped byte fed to a parser that is inside a frame reaches the `switch` as the
original byte. -/
theorem feed_escape_byte (MP QS : Nat) (p : SerialParser) (b : Nat) (tail : List Nat)
    (hs : p.state ≠ ParserState.WAIT_START) (he : p.escape_next = false) :
    feed MP QS p (escape_byte b ++ tail) = feed MP QS (dispatch MP QS p b) tail := by
  obtain ⟨address, state, cmd, len, lbr, payload, payload_len, checksum, crc, esc, queue,
    qh, qt, qc⟩ := p
  simp only at hs he
  subst he
  unfold escape_byte
  by_cases hb : b = START ∨ b = ESCAPE
  · rw [if_pos hb]
    rcases hb with hb | hb <;> subst hb <;>
      simp [feed, parse, unescape, START, ESCAPE, ESCAPE_MASK, hs]
  · rw [if_neg hb]
    have h1 : b ≠ START := fun h => hb (Or.inl h)
    have h2 : b ≠ ESCAPE := fun h => hb (Or.inr h)
    simp [feed, parse, unescape, h1, h2, hs]

end SerialParser

namespace SerialParser

theorem dispatch_payload (MP QS : Nat) (p : SerialParser) (b : Nat)
    (hs : p.state = ParserState.READ_PAYLOAD) (h1 : p.payload_len < p.len)
    (h2 : p.payload_len < MP) :
    dispatch MP QS p b =
      { p with
        crc8_acc := update_crc8 p.crc8_acc b
        payload := p.payload.set p.payload_len b
        payload_len := p.payload_len + 1
        state := if p.payload_len + 1 ≥ p.len then ParserState.READ_CHECKSUM
                 else ParserState.READ_PAYLOAD } := by
  obtain ⟨address, state, cmd, len, lbr, payload, payload_len, checksum, crc, esc, queue,
    qh, qt, qc⟩ := p
  simp only at hs h1 h2
  subst hs
  simp only [dispatch, h1, h2, and_self, if_true]
  split <;> rfl

theorem set_append_cons (pre suf : List Nat) (x b : Nat) :
    (pre ++ x :: suf).set pre.length b = pre ++ b :: suf := by
  induction pre with
  | nil => rfl
  | cons y ys ih => simp [List.set, ih]

/-- The payload bytes of a frame fill the payload buffer from `payload_len` on and take
the parser to `READ_CHECKSUM`. -/
theorem feed_payload (MP QS : Nat) (rest : List Nat) :
    ∀ (p : SerialParser) (pre suf tail : List Nat),
      p.state = ParserState.READ_PAYLOAD → p.escape_next = false →
      p.payload = pre ++ suf → p.payload_len = pre.length →
      p.len = pre.length + rest.length → p.len ≤ MP → rest.length ≤ suf.length →
      rest ≠ [] →
      feed MP QS p (escape_all rest ++ tail) =
        feed MP QS
          { p with
            state := ParserState.READ_CHECKSUM
            payload := pre ++ rest ++ suf.drop rest.length
            payload_len := p.len
            crc8_acc := rest.foldl update_crc8 p.crc8_acc } tail := by
  induction rest with
  | nil => intro p pre suf tail _ _ _ _ _ _ _ h; exact absurd rfl h
  | cons b rest ih =>
    intro p pre suf tail hs he hpay hpl hlen hmax hsuf _
    obtain ⟨x, suf2, rfl⟩ : ∃ x suf2, suf = x :: suf2 := by
      cases suf with
      | nil => simp at hsuf
      | cons x suf2 => exact ⟨x, suf2, rfl⟩
    simp only [List.length_cons] at hlen hsuf
    have e1 : escape_all (b :: rest) ++ tail = escape_byte b ++ (escape_all rest ++ tail) := by
      simp only [escape_all, List.append_assoc]
    rw [e1, feed_escape_byte MP QS p b _ (by rw [hs]; decide) he,
      dispatch_payload MP QS p b hs (by omega) (by omega)]
    obtain ⟨address, state, cmd, len, lbr, payload, payload_len, checksum, crc, esc, queue,
      qh, qt, qc⟩ := p
    simp only at hs he hpay hpl hlen hmax
    subst hs he hpay hpl hlen
    rw [set_append_cons]
    by_cases hr : rest = []
    · subst hr
      simp [escape_all]
    · have hpos : 0 < rest.length := List.length_pos.mpr hr
      have hif : ¬ (pre.length + 1 ≥ pre.length + (rest.length + 1)) := by omega
      rw [if_neg hif]
      rw [ih _ (pre ++ [b]) suf2 tail rfl rfl (by simp) (by simp)
        (by simp; omega) (by simpa using hmax) (by omega) hr]
      simp

end SerialParser

namespace SerialParser

theorem len_le16 (n : Nat) (hn : n < 65536) :
    (n % 256 ||| (n / 256) <<< 8) % 65536 = n := by
  rw [Nat.or_comm, Nat.shiftLeft_eq, Nat.mul_comm,
    ← Nat.mul_add_lt_is_or (by omega : n % 256 < 2 ^ 8)]
  omega

/-- The delimiter and the four header bytes of a frame addressed to this parser. -/
theorem feed_header (MP QS : Nat) (p : SerialParser) (a c n : Nat) (tail : List Nat)
    (ha : a = p.address ∨ a = BROADCAST) (hn : n < 65536) (hmax : n ≤ MP) :
    feed MP QS p (START :: (escape_all [a, c, n % 256, n / 256] ++ tail)) =
      feed MP QS
        { p with
          state := if n > 0 then ParserState.READ_PAYLOAD else ParserState.READ_CHECKSUM
          cmd := c
          len := n
          len_bytes_read := 0
          payload_len := 0
          crc8_acc := [a, c, n % 256, n / 256].foldl update_crc8 0
          escape_next := false } tail := by
  obtain ⟨address, state, cmd, len, lbr, payload, payload_len, checksum, crc, esc, queue,
    qh, qt, qc⟩ := p
  simp only at ha
  have e1 : escape_all [a, c, n % 256, n / 256] ++ tail
      = escape_byte a ++ (escape_byte c ++ (escape_byte (n % 256)
          ++ (escape_byte (n / 256) ++ tail))) := by
    simp only [escape_all, List.append_assoc, List.append_nil]
  rw [e1, feed_cons, parse_start]
  simp only [reset]
  rw [feed_escape_byte MP QS _ a _ (by simp) rfl]
  simp only [dispatch, ha, if_true]
  rw [feed_escape_byte MP QS _ c _ (by simp) rfl]
  simp only [dispatch]
  rw [feed_escape_byte MP QS _ (n % 256) _ (by simp) rfl]
  simp only [dispatch, if_true]
  rw [feed_escape_byte MP QS _ (n / 256) _ (by simp) rfl]
  simp only [dispatch, len_le16 n hn, List.foldl_cons, List.foldl_nil]
  by_cases h0 : n = 0
  · subst h0; simp
  · have hpos : n > 0 := Nat.pos_of_ne_zero h0
    simp [hpos, hmax]

end SerialParser

/-! ## Command queue -/

namespace SerialParser

theorem ring_index_ne (QS h i c : Nat) (hi : i < c) (hc : c < QS) :
    (h + c) % QS ≠ (h + i) % QS := by
  intro heq
  have h1 : (h + c) ≡ (h + i) [MOD QS] := heq
  have h2 : c ≡ i [MOD QS] := Nat.ModEq.add_left_cancel' h h1
  have h3 : c % QS = i % QS := h2
  rw [Nat.mod_eq_of_lt hc, Nat.mod_eq_of_lt (by omega)] at h3
  omega

theorem enqueue_command_full (QS : Nat) (p : SerialParser) (cmd : Nat) (payload : List Nat)
    (n : Nat) (hfull : ¬ p.queue_count < QS) : enqueue_command QS p cmd payload n = p := by
  simp only [enqueue_command, if_neg hfull]

theorem enqueue_command_count (QS : Nat) (p : SerialParser) (cmd : Nat) (payload : List Nat)
    (n : Nat) (hroom : p.queue_count < QS) :
    (enqueue_command QS p cmd payload n).queue_count = p.queue_count + 1 := by
  simp only [enqueue_command, if_pos hroom]

theorem enqueue_command_wf (QS : Nat) (p : SerialParser) (cmd : Nat) (payload : List Nat)
    (n : Nat) (hwf : queue_wf QS p) : queue_wf QS (enqueue_command QS p cmd payload n) := by
  obtain ⟨h1, h2, h3, h4⟩ := hwf
  unfold enqueue_command
  split
  · refine ⟨by simpa using h1, h2, by simp only; omega, ?_⟩
    simp only [h4, Nat.mod_add_mod]
    rfl
  · exact ⟨h1, h2, h3, h4⟩

/-- An enqueue on a queue with room appends the new command to the waiting ones. -/
theorem pending_enqueue_command (QS : Nat) (p : SerialParser) (cmd : Nat)
    (payload : List Nat) (n : Nat) (hwf : queue_wf QS p) (hroom : p.queue_count < QS) :
    pending QS (enqueue_command QS p cmd payload n) =
      pending QS p ++
        [{ cmd := cmd
           payload_len := n
           payload := memcpy (p.queue.getD p.queue_tail default).payload payload n }] := by
  obtain ⟨h1, h2, h3, h4⟩ := hwf
  simp only [enqueue_command, if_pos hroom, pending, List.range_succ, List.map_append,
    List.map_cons, List.map_nil]
  congr 1
  · apply List.map_congr_left
    intro i hi
    have hi2 : i < p.queue_count := List.mem_range.mp hi
    have hne : p.queue_tail ≠ (p.queue_head + i) % QS := by
      rw [h4]; exact ring_index_ne QS _ i _ hi2 hroom
    simp only [List.getD_eq_getElem?_getD, List.getElem?_set_ne hne]
  · have hlt : p.queue_tail < p.queue.length := by
      rw [h1, h4]; exact Nat.mod_lt _ (by omega)
    simp only [← h4, List.getD_eq_getElem?_getD, List.getElem?_set_self hlt, Option.getD_some]

theorem read_empty (QS : Nat) (p : SerialParser) (h : p.queue_count = 0) :
    read QS p = (none, p) := by
  simp only [read, if_pos h]

theorem read_wf (QS : Nat) (p : SerialParser) (hwf : queue_wf QS p) :
    queue_wf QS (read QS p).2 := by
  obtain ⟨h1, h2, h3, h4⟩ := hwf
  unfold read
  split
  · exact ⟨h1, h2, h3, h4⟩
  · rename_i hne
    refine ⟨h1, Nat.mod_lt _ (by omega), by simp only; omega, ?_⟩
    simp only [h4, Nat.mod_add_mod]
    congr 1
    omega

/-- A read on a non-empty queue returns the oldest waiting command and removes it. -/
theorem read_nonempty (QS : Nat) (p : SerialParser) (hwf : queue_wf QS p)
    (hpos : 0 < p.queue_count) :
    (read QS p).1 = (pending QS p).head? ∧
    pending QS (read QS p).2 = (pending QS p).tail ∧
    (read QS p).2.queue_count = p.queue_count - 1 := by
  obtain ⟨h1, h2, h3, h4⟩ := hwf
  have hne : ¬ p.queue_count = 0 := by omega
  obtain ⟨k, hk⟩ : ∃ k, p.queue_count = k + 1 := ⟨p.queue_count - 1, by omega⟩
  have hr : read QS p = (some (p.queue.getD p.queue_head default),
      { p with queue_head := (p.queue_head + 1) % QS, queue_count := p.queue_count - 1 }) := by
    simp only [read, if_neg hne]
  rw [hr]
  simp only [pending, hk, List.range_succ_eq_map, List.map_cons,
    List.head?_cons, List.tail_cons, List.map_map, Nat.add_zero, Nat.mod_eq_of_lt h2,
    Nat.add_sub_cancel, true_and, and_true]
  apply List.map_congr_left
  intro i _
  simp only [Function.comp, Nat.mod_add_mod]
  congr 2
  omega

end SerialParser

/-! ## Parser: a whole frame -/

namespace SerialParser

theorem dispatch_checksum (MP QS : Nat) (p : SerialParser) (k : Nat)
    (hs : p.state = ParserState.READ_CHECKSUM) :
    dispatch MP QS p k =
      validate QS { p with checksum := k, state := ParserState.WAIT_START } := by
  obtain ⟨address, state, cmd, len, lbr, payload, payload_len, checksum, crc, esc, queue,
    qh, qt, qc⟩ := p
  simp only at hs
  subst hs
  simp only [dispatch]

/-- A frame written by `send_packet` for this parser's address (or to `BROADCAST`), fed
to the parser in any state, ends in `validate` accepting the checksum: the command is
handed to `enqueue_command` and the parser is back in `WAIT_START`. -/
theorem feed_frame (MP QS MAXE : Nat) (p : SerialParser) (a c : Nat) (pl : List Nat)
    (ha : a = p.address ∨ a = BROADCAST) (hmax : pl.length ≤ MP) (h16 : pl.length < 65536)
    (hbuf : p.payload.length = MP)
    (hfit : escaped_size (send_packet_raw a c (some pl) pl.length) ≤ MAXE) :
    feed MP QS p (send_packet MAXE true a c (some pl) pl.length) =
      { enqueue_command QS
          { p with
            state := ParserState.WAIT_START
            cmd := c
            len := pl.length
            len_bytes_read := 0
            payload := pl ++ p.payload.drop pl.length
            payload_len := pl.length
            checksum := crc8 ([a, c, pl.length % 256, pl.length / 256] ++ pl)
              ([a, c, pl.length % 256, pl.length / 256] ++ pl).length
            crc8_acc := crc8 ([a, c, pl.length % 256, pl.length / 256] ++ pl)
              ([a, c, pl.length % 256, pl.length / 256] ++ pl).length
            escape_next := false }
          c (pl ++ p.payload.drop pl.length) pl.length with
        crc8_acc := 0 } := by
  have hK : crc8 ([a, c, pl.length % 256, pl.length / 256] ++ pl)
      ([a, c, pl.length % 256, pl.length / 256] ++ pl).length
      = pl.foldl update_crc8 ([a, c, pl.length % 256, pl.length / 256].foldl update_crc8 0) := by
    rw [crc8_eq_foldl, List.foldl_append]
  unfold send_packet
  rw [if_pos rfl, escape_packet_fits _ _ hfit, send_packet_raw_some a c pl h16, hK]
  generalize hKdef : pl.foldl update_crc8
    ([a, c, pl.length % 256, pl.length / 256].foldl update_crc8 0) = K
  have e1 : [START] ++ escape_all ([a, c, pl.length % 256, pl.length / 256] ++ pl ++ [K])
      = START :: (escape_all [a, c, pl.length % 256, pl.length / 256]
          ++ (escape_all pl ++ (escape_byte K ++ []))) := by
    have e0 : escape_all [K] = escape_byte K ++ [] := rfl
    rw [escape_all_append, escape_all_append, e0]
    simp only [List.append_assoc, List.singleton_append]
  rw [e1, feed_header MP QS p a c pl.length _ ha h16 hmax]
  by_cases hpl : pl = []
  · subst hpl
    simp only [List.length_nil, gt_iff_lt, Nat.lt_irrefl, if_false, escape_all,
      List.nil_append]
    rw [feed_escape_byte MP QS _ K _ (by simp) rfl, dispatch_checksum MP QS _ K rfl]
    subst hKdef
    simp [feed, validate]
  · have hpos : pl.length > 0 := List.length_pos.mpr hpl
    rw [if_pos hpos]
    rw [feed_payload MP QS pl _ [] p.payload _ rfl rfl (by simp) rfl (by simp) hmax
      (by omega) hpl]
    rw [feed_escape_byte MP QS _ K _ (by simp) rfl, dispatch_checksum MP QS _ K rfl]
    subst hKdef
    simp [feed, validate]

end SerialParser

/-! ## Parser: invariants kept by every byte -/

namespace SerialParser

theorem validate_keeps (MP QS : Nat) (q : SerialParser)
    (hq : queue_wf QS q ∧ q.payload.length = MP) :
    (queue_wf QS (validate QS q) ∧ (validate QS q).payload.length = MP) ∧
    (validate QS q).address = q.address := by
  unfold validate
  split
  · have hw := enqueue_command_wf QS q q.cmd q.payload q.payload_len hq.1
    have hp : (enqueue_command QS q q.cmd q.payload q.payload_len).payload = q.payload := by
      unfold enqueue_command; split <;> rfl
    have hadr : (enqueue_command QS q q.cmd q.payload q.payload_len).address = q.address := by
      unfold enqueue_command; split <;> rfl
    exact ⟨⟨hw, by simp only [hp]; exact hq.2⟩, hadr⟩
  · exact ⟨hq, rfl⟩

theorem dispatch_keeps (MP QS : Nat) (p : SerialParser) (b : Nat)
    (h : queue_wf QS p ∧ p.payload.length = MP) :
    (queue_wf QS (dispatch MP QS p b) ∧ (dispatch MP QS p b).payload.length = MP) ∧
    (dispatch MP QS p b).address = p.address := by
  obtain ⟨⟨h1, h2, h3, h4⟩, h5⟩ := h
  obtain ⟨address, state, cmd, len, lbr, payload, payload_len, checksum, crc, esc, queue,
    qh, qt, qc⟩ := p
  simp only at h1 h2 h3 h4 h5
  cases state
  case READ_CHECKSUM =>
    simp only [dispatch]
    exact validate_keeps MP QS _ ⟨⟨h1, h2, h3, h4⟩, h5⟩
  case READ_PAYLOAD =>
    simp only [dispatch]
    split <;> split <;>
      (refine ⟨⟨⟨h1, h2, h3, h4⟩, ?_⟩, ?_⟩ <;> first | exact h5 | trivial | simp [h5])
  case READ_LEN =>
    simp only [dispatch]
    split
    · (refine ⟨⟨⟨h1, h2, h3, h4⟩, ?_⟩, ?_⟩ <;> first | exact h5 | trivial)
    · split
      · (refine ⟨⟨⟨h1, h2, h3, h4⟩, ?_⟩, ?_⟩ <;> first | exact h5 | trivial)
      · split <;>
          (refine ⟨⟨⟨h1, h2, h3, h4⟩, ?_⟩, ?_⟩ <;> first | exact h5 | trivial)
  case READ_CMD =>
    simp only [dispatch]
    (refine ⟨⟨⟨h1, h2, h3, h4⟩, ?_⟩, ?_⟩ <;> first | exact h5 | trivial)
  case READ_ADDR =>
    simp only [dispatch]
    split <;> (refine ⟨⟨⟨h1, h2, h3, h4⟩, ?_⟩, ?_⟩ <;> first | exact h5 | trivial)
  case WAIT_START =>
    simp only [dispatch]
    (refine ⟨⟨⟨h1, h2, h3, h4⟩, ?_⟩, ?_⟩ <;> first | exact h5 | trivial)

/-- What every `parse` call keeps: the ring-buffer invariant, the size of the payload
buffer and the configured address. -/
theorem parse_keeps (MP QS : Nat) (p : SerialParser) (b : Nat)
    (h : queue_wf QS p ∧ p.payload.length = MP) :
    (queue_wf QS (parse MP QS p b) ∧ (parse MP QS p b).payload.length = MP) ∧
    (parse MP QS p b).address = p.address := by
  unfold parse
  by_cases hb : b = START
  · rw [if_pos hb]
    exact ⟨h, rfl⟩
  · rw [if_neg hb]
    simp only
    generalize (if p.state ≠ ParserState.WAIT_START then unescape p.escape_next b
      else (p.escape_next, some b)) = r
    cases hr : r.2 with
    | none => exact ⟨h, rfl⟩
    | some x => exact dispatch_keeps MP QS { p with escape_next := r.1 } x h

theorem feed_keeps (MP QS : Nat) (bytes : List Nat) : ∀ (p : SerialParser),
    (queue_wf QS p ∧ p.payload.length = MP) →
    (queue_wf QS (feed MP QS p bytes) ∧ (feed MP QS p bytes).payload.length = MP) ∧
    (feed MP QS p bytes).address = p.address := by
  induction bytes with
  | nil => intro p h; exact ⟨h, rfl⟩
  | cons b rest ih =>
    intro p h
    have h1 := parse_keeps MP QS p b h
    have h2 := ih (parse MP QS p b) h1.1
    rw [feed_cons]
    exact ⟨h2.1, h2.2.trans h1.2⟩

theorem init_keeps (MP QS address : Nat) (hQS : 0 < QS) :
    queue_wf QS (init MP QS address) ∧ (init MP QS address).payload.length = MP := by
  refine ⟨⟨?_, ?_, ?_, ?_⟩, ?_⟩ <;> simp [init, hQS]

/-- Outside a frame every byte but the delimiter is dropped. -/
theorem feed_wait_start (MP QS : Nat) (bytes : List Nat) (p : SerialParser)
    (hs : p.state = ParserState.WAIT_START) (hr : p.reset = p) (hb : START ∉ bytes) :
    feed MP QS p bytes = p := by
  induction bytes with
  | nil => rfl
  | cons b rest ih =>
    have hne : b ≠ START := fun h => hb (by rw [h]; exact List.mem_cons_self _ _)
    have hp : parse MP QS p b = p := by
      unfold parse
      rw [if_neg hne]
      simp only [hs, ne_eq, not_true_eq_false, if_false]
      unfold dispatch
      simp only [hs]
      exact hr
    rw [feed_cons, hp]
    exact ih (fun h => hb (List.mem_cons_of_mem _ h))

end SerialParser

/-! ## Parser: the claims about whole frames -/

namespace SerialParser

theorem memcpy_content (dst src : List Nat) (n : Nat) (cmd : Nat) (h : n ≤ src.length) :
    Command.content { cmd := cmd, payload_len := n, payload := memcpy dst src n }
      = (cmd, n, src.take n) := by
  simp only [Command.content, memcpy]
  rw [List.take_append_of_le_length (by simp; omega)]
  simp [List.take_take]

/-- A frame for this parser, fed when the queue is well formed and has room, appends its
command to the waiting ones. -/
theorem feed_frame_pending (MP QS MAXE : Nat) (p : SerialParser) (a c : Nat) (pl : List Nat)
    (ha : a = p.address ∨ a = BROADCAST) (hmax : pl.length ≤ MP) (h16 : pl.length < 65536)
    (hbuf : p.payload.length = MP)
    (hfit : escaped_size (send_packet_raw a c (some pl) pl.length) ≤ MAXE)
    (hwf : queue_wf QS p) (hroom : p.queue_count < QS) :
    (∃ x, pending QS (feed MP QS p (send_packet MAXE true a c (some pl) pl.length))
        = pending QS p ++ [x] ∧ x.content = (c, pl.length, pl)) ∧
    (feed MP QS p (send_packet MAXE true a c (some pl) pl.length)).queue_count
      = p.queue_count + 1 ∧
    (feed MP QS p (send_packet MAXE true a c (some pl) pl.length)).state
      = ParserState.WAIT_START := by
  rw [feed_frame MP QS MAXE p a c pl ha hmax h16 hbuf hfit]
  refine ⟨?_, ?_, ?_⟩
  · refine ⟨{ cmd := c
              payload_len := pl.length
              payload := memcpy (p.queue.getD p.queue_tail default).payload
                (pl ++ p.payload.drop pl.length) pl.length }, ?_, ?_⟩
    · have h := pending_enqueue_command QS
        { p with
          state := ParserState.WAIT_START
          cmd := c
          len := pl.length
          len_bytes_read := 0
          payload := pl ++ p.payload.drop pl.length
          payload_len := pl.length
          checksum := crc8 ([a, c, pl.length % 256, pl.length / 256] ++ pl)
            ([a, c, pl.length % 256, pl.length / 256] ++ pl).length
          crc8_acc := crc8 ([a, c, pl.length % 256, pl.length / 256] ++ pl)
            ([a, c, pl.length % 256, pl.length / 256] ++ pl).length
          escape_next := false }
        c (pl ++ p.payload.drop pl.length) pl.length hwf hroom
      exact h
    · rw [memcpy_content _ _ _ _ (by simp)]
      simp
  · simp only [enqueue_command, if_pos hroom]
  · simp only [enqueue_command, if_pos hroom]

end SerialParser

/-- C1: round trip.  The bytes `send_packet(a, c, p, |p|)` writes, when the payload is at
most `MAX_PAYLOAD_SIZE` long and the escaped packet fits `MAX_ESCAPED_PACKET_SIZE`, fed
one at a time to a parser with an empty queue whose address is `a` (any address when
`a = BROADCAST`), leave exactly one command in the queue, with `cmd = c`,
`payload_len = |p|` and payload bytes `p`.  The parser may start in any state (a freshly
reset one included); its payload buffer has `MAX_PAYLOAD_SIZE` bytes and its ring buffer
is well formed, and `|p|` is a `uint16_t`. -/
theorem send_packet_parse_round_trip (MAX_PAYLOAD_SIZE CMD_QUEUE_SIZE
    MAX_ESCAPED_PACKET_SIZE : Nat) (parser : SerialParser) (a c : Nat) (p : List Nat)
    (hbuf : parser.payload.length = MAX_PAYLOAD_SIZE)
    (hwf : SerialParser.queue_wf CMD_QUEUE_SIZE parser)
    (hempty : parser.queue_count = 0)
    (ha : a = parser.address ∨ a = BROADCAST)
    (hmax : p.length ≤ MAX_PAYLOAD_SIZE) (h16 : p.length < 65536)
    (hfit : escaped_size (send_packet_raw a c (some p) p.length) ≤ MAX_ESCAPED_PACKET_SIZE) :
    (SerialParser.feed MAX_PAYLOAD_SIZE CMD_QUEUE_SIZE parser
      (send_packet MAX_ESCAPED_PACKET_SIZE true a c (some p) p.length)).queue_count = 1 ∧
    (SerialParser.pending CMD_QUEUE_SIZE
      (SerialParser.feed MAX_PAYLOAD_SIZE CMD_QUEUE_SIZE parser
        (send_packet MAX_ESCAPED_PACKET_SIZE true a c (some p) p.length))).map
      Command.content = [(c, p.length, p)] := by
  have hroom : parser.queue_count < CMD_QUEUE_SIZE := by
    have := hwf.2.1
    omega
  obtain ⟨⟨x, hx, hc⟩, hcount, _⟩ := SerialParser.feed_frame_pending MAX_PAYLOAD_SIZE
    CMD_QUEUE_SIZE MAX_ESCAPED_PACKET_SIZE parser a c p ha hmax h16 hbuf hfit hwf hroom
  refine ⟨by rw [hcount, hempty], ?_⟩
  have hp : SerialParser.pending CMD_QUEUE_SIZE parser = [] := by
    simp [SerialParser.pending, hempty]
  rw [hx, hp]
  simp [hc]

theorem send_packet_parse_round_trip_witness :
    ((SerialParser.init 8 2 0x02).payload.length = 8 ∧
      SerialParser.queue_wf 2 (SerialParser.init 8 2 0x02) ∧
      (SerialParser.init 8 2 0x02).queue_count = 0 ∧
      (0x02 = (SerialParser.init 8 2 0x02).address ∨ 0x02 = BROADCAST) ∧
      [0x01, 0xAA, 0x07].length ≤ 8 ∧ [0x01, 0xAA, 0x07].length < 65536 ∧
      escaped_size (send_packet_raw 0x02 0x03 (some [0x01, 0xAA, 0x07]) 3) ≤ 16) ∧
    (SerialParser.feed 8 2 (SerialParser.init 8 2 0x02)
        (send_packet 16 true 0x02 0x03 (some [0x01, 0xAA, 0x07]) 3)).queue_count = 1 ∧
    (SerialParser.pending 2
        (SerialParser.feed 8 2 (SerialParser.init 8 2 0x02)
          (send_packet 16 true 0x02 0x03 (some [0x01, 0xAA, 0x07]) 3))).map
        Command.content = [(0x03, 3, [0x01, 0xAA, 0x07])] :=
  ⟨by decide,
   send_packet_parse_round_trip 8 2 16 (SerialParser.init 8 2 0x02) 0x02 0x03
     [0x01, 0xAA, 0x07] (by decide) (by decide) (by decide) (by decide) (by decide)
     (by decide) (by decide)⟩

namespace SerialParser

theorem send_packet_raw_cons (a c : Nat) (payload : Option (List Nat)) (payload_len : Nat) :
    ∃ rest, send_packet_raw a c payload payload_len = a :: rest := by
  unfold send_packet_raw
  cases payload with
  | none => exact ⟨_, rfl⟩
  | some bytes =>
    simp only
    split <;> exact ⟨_, rfl⟩

/-- A delimiter followed by an address byte that is neither this parser's nor
`BROADCAST` leaves the parser reset. -/
theorem feed_foreign_address (MP QS : Nat) (p : SerialParser) (a : Nat)
    (hne : a ≠ p.address) (hnb : a ≠ BROADCAST) :
    feed MP QS p (START :: escape_byte a) = p.reset := by
  obtain ⟨address, state, cmd, len, lbr, payload, payload_len, checksum, crc, esc, queue,
    qh, qt, qc⟩ := p
  simp only at hne
  have e : START :: escape_byte a = START :: (escape_byte a ++ []) := by simp
  rw [e, feed_cons, parse_start]
  simp only [reset]
  rw [feed_escape_byte MP QS _ a _ (by simp) rfl]
  simp [dispatch, hne, hnb, reset, feed]

end SerialParser

/-- C7: address filtering.  A frame written by `send_packet` (not cut off) whose address
is neither the parser's configured address nor `BROADCAST`, fed byte by byte to a parser
in any state, leaves the parser as `reset` leaves it: in `WAIT_START`, with the queue,
the stored command and the payload buffer as they were before the frame; and this is the
state already after the address byte. -/
theorem foreign_frame_is_dropped (MAX_PAYLOAD_SIZE CMD_QUEUE_SIZE MAX_ESCAPED_PACKET_SIZE : Nat)
    (parser : SerialParser) (a c : Nat) (payload : Option (List Nat)) (payload_len : Nat)
    (hne : a ≠ parser.address) (hnb : a ≠ BROADCAST)
    (hfit : escaped_size (send_packet_raw a c payload payload_len)
      ≤ MAX_ESCAPED_PACKET_SIZE) :
    SerialParser.feed MAX_PAYLOAD_SIZE CMD_QUEUE_SIZE parser
        (send_packet MAX_ESCAPED_PACKET_SIZE true a c payload payload_len) = parser.reset ∧
    SerialParser.feed MAX_PAYLOAD_SIZE CMD_QUEUE_SIZE parser (START :: escape_byte a)
      = parser.reset ∧
    parser.reset.state = ParserState.WAIT_START ∧
    parser.reset.queue = parser.queue ∧ parser.reset.queue_head = parser.queue_head ∧
    parser.reset.queue_tail = parser.queue_tail ∧
    parser.reset.queue_count = parser.queue_count ∧
    parser.reset.cmd = parser.cmd ∧ parser.reset.payload = parser.payload := by
  refine ⟨?_, SerialParser.feed_foreign_address _ _ parser a hne hnb,
    rfl, rfl, rfl, rfl, rfl, rfl, rfl⟩
  obtain ⟨rest, hrest⟩ := SerialParser.send_packet_raw_cons a c payload payload_len
  unfold send_packet
  rw [if_pos rfl, escape_packet_fits _ _ hfit, hrest]
  have e : [START] ++ escape_all (a :: rest) = (START :: escape_byte a) ++ escape_all rest := by
    simp only [escape_all, List.singleton_append, List.cons_append, List.nil_append]
  rw [e, SerialParser.feed_append, SerialParser.feed_foreign_address _ _ parser a hne hnb]
  exact SerialParser.feed_wait_start _ _ _ _ rfl rfl (escape_all_no_start rest)

theorem foreign_frame_is_dropped_witness :
    (0x05 ≠ (SerialParser.init 8 2 0x02).address ∧ 0x05 ≠ BROADCAST ∧
      escaped_size (send_packet_raw 0x05 0x03 (some [0x01, 0xAA, 0x07]) 3) ≤ 16) ∧
    SerialParser.feed 8 2 (SerialParser.init 8 2 0x02)
        (send_packet 16 true 0x05 0x03 (some [0x01, 0xAA, 0x07]) 3)
      = (SerialParser.init 8 2 0x02).reset :=
  ⟨by decide,
   (foreign_frame_is_dropped 8 2 16 (SerialParser.init 8 2 0x02) 0x05 0x03
      (some [0x01, 0xAA, 0x07]) 3 (by decide) (by decide) (by decide)).1⟩

/-- C8: resynchronization.  A delimiter fed in any parser state gives `READ_ADDR` with
`payload_len`, `len`, `len_bytes_read` and the CRC accumulator at 0 and the escape flag
clear.  After any byte sequence `s` fed from the initial state, a valid frame for this
parser with payload length at most `MAX_PAYLOAD_SIZE` appends exactly its command and
payload to the queue as it stood after `s`, when the queue is not full. -/
theorem delimiter_resynchronizes (MAX_PAYLOAD_SIZE CMD_QUEUE_SIZE MAX_ESCAPED_PACKET_SIZE : Nat)
    (address : Nat) (s : List Nat) (a c : Nat) (p : List Nat)
    (ha : a = address ∨ a = BROADCAST)
    (hmax : p.length ≤ MAX_PAYLOAD_SIZE) (h16 : p.length < 65536)
    (hfit : escaped_size (send_packet_raw a c (some p) p.length) ≤ MAX_ESCAPED_PACKET_SIZE)
    (hroom : (SerialParser.feed MAX_PAYLOAD_SIZE CMD_QUEUE_SIZE
      (SerialParser.init MAX_PAYLOAD_SIZE CMD_QUEUE_SIZE address) s).queue_count
        < CMD_QUEUE_SIZE) :
    (∀ q : SerialParser,
      SerialParser.parse MAX_PAYLOAD_SIZE CMD_QUEUE_SIZE q START =
        { q with
          state := ParserState.READ_ADDR
          payload_len := 0
          len := 0
          len_bytes_read := 0
          crc8_acc := 0
          escape_next := false }) ∧
    (∃ x : Command,
      SerialParser.pending CMD_QUEUE_SIZE
        (SerialParser.feed MAX_PAYLOAD_SIZE CMD_QUEUE_SIZE
          (SerialParser.feed MAX_PAYLOAD_SIZE CMD_QUEUE_SIZE
            (SerialParser.init MAX_PAYLOAD_SIZE CMD_QUEUE_SIZE address) s)
          (send_packet MAX_ESCAPED_PACKET_SIZE true a c (some p) p.length))
        = SerialParser.pending CMD_QUEUE_SIZE
            (SerialParser.feed MAX_PAYLOAD_SIZE CMD_QUEUE_SIZE
              (SerialParser.init MAX_PAYLOAD_SIZE CMD_QUEUE_SIZE address) s) ++ [x] ∧
      x.content = (c, p.length, p)) := by
  have hQS : 0 < CMD_QUEUE_SIZE := by omega
  obtain ⟨⟨hwf, hbuf⟩, hadr⟩ := SerialParser.feed_keeps MAX_PAYLOAD_SIZE CMD_QUEUE_SIZE s
    (SerialParser.init MAX_PAYLOAD_SIZE CMD_QUEUE_SIZE address)
    (SerialParser.init_keeps MAX_PAYLOAD_SIZE CMD_QUEUE_SIZE address hQS)
  refine ⟨fun q => SerialParser.parse_start _ _ q, ?_⟩
  have ha2 : a = (SerialParser.feed MAX_PAYLOAD_SIZE CMD_QUEUE_SIZE
      (SerialParser.init MAX_PAYLOAD_SIZE CMD_QUEUE_SIZE address) s).address ∨ a = BROADCAST := by
    rw [hadr]; exact ha
  exact (SerialParser.feed_frame_pending MAX_PAYLOAD_SIZE CMD_QUEUE_SIZE
    MAX_ESCAPED_PACKET_SIZE _ a c p ha2 hmax h16 hbuf hfit hwf hroom).1

theorem delimiter_resynchronizes_witness :
    ((0x02 = 0x02 ∨ 0x02 = BROADCAST) ∧ [0x01, 0xAA, 0x07].length ≤ 8 ∧
      [0x01, 0xAA, 0x07].length < 65536 ∧
      escaped_size (send_packet_raw 0x02 0x03 (some [0x01, 0xAA, 0x07]) 3) ≤ 16 ∧
      (SerialParser.feed 8 2 (SerialParser.init 8 2 0x02)
        [0xAA, 0x02, 0x04, 0x05, 0x00, 0x09, 0xAB]).queue_count < 2) ∧
    (∃ x : Command,
      SerialParser.pending 2
        (SerialParser.feed 8 2
          (SerialParser.feed 8 2 (SerialParser.init 8 2 0x02)
            [0xAA, 0x02, 0x04, 0x05, 0x00, 0x09, 0xAB])
          (send_packet 16 true 0x02 0x03 (some [0x01, 0xAA, 0x07])
            [0x01, 0xAA, 0x07].length))
        = SerialParser.pending 2
            (SerialParser.feed 8 2 (SerialParser.init 8 2 0x02)
              [0xAA, 0x02, 0x04, 0x05, 0x00, 0x09, 0xAB]) ++ [x] ∧
      x.content = (0x03, [0x01, 0xAA, 0x07].length, [0x01, 0xAA, 0x07])) :=
  ⟨by decide,
   (delimiter_resynchronizes 8 2 16 0x02 [0xAA, 0x02, 0x04, 0x05, 0x00, 0x09, 0xAB]
      0x02 0x03 [0x01, 0xAA, 0x07] (by decide) (by decide) (by decide) (by decide)
      (by decide)).2⟩

/-! ## Command queue: overflow and FIFO order -/

namespace SerialParser

theorem pending_length (QS : Nat) (p : SerialParser) :
    (pending QS p).length = p.queue_count := by
  simp [pending]

theorem enqueue_content (QS : Nat) (p : SerialParser) (cmd : Nat) (payload : List Nat)
    (n : Nat) (hwf : queue_wf QS p) (hv : n ≤ payload.length) :
    (pending QS (enqueue_command QS p cmd payload n)).map Command.content =
      if ((pending QS p).map Command.content).length < QS then
        (pending QS p).map Command.content ++ [(cmd, n, payload.take n)]
      else (pending QS p).map Command.content := by
  rw [List.length_map, pending_length]
  by_cases hroom : p.queue_count < QS
  · rw [if_pos hroom, pending_enqueue_command QS p cmd payload n hwf hroom, List.map_append,
      List.map_singleton, memcpy_content _ _ _ _ hv]
  · rw [if_neg hroom, enqueue_command_full QS p cmd payload n hroom]

theorem read_content (QS : Nat) (p : SerialParser) (hwf : queue_wf QS p) :
    (read QS p).1.map Command.content = ((pending QS p).map Command.content).head? ∧
    (pending QS (read QS p).2).map Command.content
      = ((pending QS p).map Command.content).tail := by
  rcases Nat.eq_zero_or_pos p.queue_count with h0 | hpos
  · have hp : pending QS p = [] := by simp [pending, h0]
    rw [read_empty QS p h0, hp]
    simp
  · obtain ⟨h1, h2, _⟩ := read_nonempty QS p hwf hpos
    rw [h1, h2]
    constructor
    · cases pending QS p <;> simp
    · cases pending QS p <;> simp

/-- The ring buffer simulates the bounded list, call by call. -/
theorem run_ops_simulates (QS : Nat) (ops : List QueueOp) :
    ∀ (p : SerialParser) (l : List (Nat × Nat × List Nat)),
      queue_wf QS p → (pending QS p).map Command.content = l →
      (∀ op ∈ ops, op.valid) →
      (pending QS (run_ops QS p ops).1).map Command.content = (bounded_list_ops QS l ops).1 ∧
      (run_ops QS p ops).2.map (Option.map Command.content) = (bounded_list_ops QS l ops).2 := by
  induction ops with
  | nil => intro p l _ hl _; exact ⟨hl, rfl⟩
  | cons op rest ih =>
    intro p l hwf hl hvalid
    have hrest : ∀ o ∈ rest, o.valid := fun o ho => hvalid o (List.mem_cons_of_mem _ ho)
    cases op with
    | enqueue cmd payload n =>
      have hv : n ≤ payload.length := hvalid _ (List.mem_cons_self _ _)
      simp only [run_ops, bounded_list_ops]
      refine ih _ _ (enqueue_command_wf QS p cmd payload n hwf) ?_ hrest
      rw [enqueue_content QS p cmd payload n hwf hv, hl]
    | read =>
      obtain ⟨h1, h2⟩ := read_content QS p hwf
      have := ih (read QS p).2 l.tail (read_wf QS p hwf) (by rw [h2, hl]) hrest
      simp only [run_ops, bounded_list_ops, List.map_cons]
      exact ⟨this.1, by rw [this.2, h1, hl]⟩

theorem enqueue_many_content (QS : Nat) (cmds : List (Nat × List Nat × Nat)) :
    ∀ (p : SerialParser), queue_wf QS p → (∀ x ∈ cmds, x.2.2 ≤ x.2.1.length) →
      queue_wf QS (cmds.foldl (fun q x => enqueue_command QS q x.1 x.2.1 x.2.2) p) ∧
      (pending QS (cmds.foldl (fun q x => enqueue_command QS q x.1 x.2.1 x.2.2) p)).map
          Command.content
        = ((pending QS p).map Command.content
            ++ cmds.map (fun x => (x.1, x.2.2, x.2.1.take x.2.2))).take QS := by
  induction cmds with
  | nil =>
    intro p hwf _
    refine ⟨hwf, ?_⟩
    have hlen : ((pending QS p).map Command.content).length ≤ QS := by
      rw [List.length_map, pending_length]; exact hwf.2.2.1
    simp only [List.foldl_nil, List.map_nil, List.append_nil]
    exact (List.take_of_length_le hlen).symm
  | cons x rest ih =>
    intro p hwf hvalid
    have hv : x.2.2 ≤ x.2.1.length := hvalid x (List.mem_cons_self _ _)
    have hrest : ∀ y ∈ rest, y.2.2 ≤ y.2.1.length :=
      fun y hy => hvalid y (List.mem_cons_of_mem _ hy)
    obtain ⟨h1, h2⟩ := ih (enqueue_command QS p x.1 x.2.1 x.2.2)
      (enqueue_command_wf QS p _ _ _ hwf) hrest
    refine ⟨h1, ?_⟩
    simp only [List.foldl_cons, List.map_cons]
    rw [h2, enqueue_content QS p _ _ _ hwf hv]
    have hlen : ((pending QS p).map Command.content).length ≤ QS := by
      rw [List.length_map, pending_length]; exact hwf.2.2.1
    generalize (pending QS p).map Command.content = l at hlen ⊢
    split
    · simp
    · have hl : l.length = QS := by omega
      rw [List.take_append_of_le_length (by omega), List.take_append_of_le_length (by omega)]

theorem read_n_content (QS : Nat) (l : List (Nat × Nat × List Nat)) :
    ∀ (p : SerialParser), queue_wf QS p → (pending QS p).map Command.content = l →
      (read_n QS (l.length + 1) p).1.map (Option.map Command.content)
        = l.map some ++ [none] := by
  induction l with
  | nil =>
    intro p hwf hl
    obtain ⟨h1, _⟩ := read_content QS p hwf
    rw [hl] at h1
    simp only [List.length_nil, read_n, List.map_cons, List.map_nil, List.nil_append, h1,
      List.head?_nil]
  | cons v rest ih =>
    intro p hwf hl
    obtain ⟨h1, h2⟩ := read_content QS p hwf
    rw [hl] at h1 h2
    have := ih (read QS p).2 (read_wf QS p hwf) h2
    have e : (read_n QS ((v :: rest).length + 1) p).1
        = (read QS p).1 :: (read_n QS (rest.length + 1) (read QS p).2).1 := rfl
    rw [e, List.map_cons, this, h1]
    rfl

end SerialParser

/-- C9: queue bound.  With capacity `CMD_QUEUE_SIZE ≥ 1`, after more than `CMD_QUEUE_SIZE`
commands are passed to `enqueue_command` on an empty queue with no read in between,
`queue_count` is `CMD_QUEUE_SIZE`, the next `CMD_QUEUE_SIZE` reads return the first
`CMD_QUEUE_SIZE` commands in the order they were enqueued and the read after them returns
null; an enqueue on a full queue changes nothing. -/
theorem queue_overflow_keeps_oldest (CMD_QUEUE_SIZE : Nat) (parser : SerialParser)
    (cmds : List (Nat × List Nat × Nat))
    (_hcap : 1 ≤ CMD_QUEUE_SIZE)
    (hwf : SerialParser.queue_wf CMD_QUEUE_SIZE parser)
    (hempty : parser.queue_count = 0)
    (hmore : CMD_QUEUE_SIZE < cmds.length)
    (hvalid : ∀ x ∈ cmds, x.2.2 ≤ x.2.1.length) :
    (cmds.foldl (fun q x => SerialParser.enqueue_command CMD_QUEUE_SIZE q x.1 x.2.1 x.2.2)
      parser).queue_count = CMD_QUEUE_SIZE ∧
    (SerialParser.read_n CMD_QUEUE_SIZE (CMD_QUEUE_SIZE + 1)
      (cmds.foldl (fun q x => SerialParser.enqueue_command CMD_QUEUE_SIZE q x.1 x.2.1 x.2.2)
        parser)).1.map (Option.map Command.content)
      = (cmds.take CMD_QUEUE_SIZE).map (fun x => some (x.1, x.2.2, x.2.1.take x.2.2))
        ++ [none] ∧
    (∀ (full : SerialParser) (cmd : Nat) (payload : List Nat) (payload_len : Nat),
      CMD_QUEUE_SIZE ≤ full.queue_count →
      SerialParser.enqueue_command CMD_QUEUE_SIZE full cmd payload payload_len = full) := by
  obtain ⟨hwf2, hcontent⟩ :=
    SerialParser.enqueue_many_content CMD_QUEUE_SIZE cmds parser hwf hvalid
  have hp : SerialParser.pending CMD_QUEUE_SIZE parser = [] := by
    simp [SerialParser.pending, hempty]
  rw [hp, List.map_nil, List.nil_append, ← List.map_take] at hcontent
  have hlen : ((cmds.take CMD_QUEUE_SIZE).map
      (fun x => (x.1, x.2.2, x.2.1.take x.2.2))).length = CMD_QUEUE_SIZE := by
    rw [List.length_map, List.length_take]; omega
  refine ⟨?_, ?_, ?_⟩
  · have h := congrArg List.length hcontent
    rw [List.length_map, SerialParser.pending_length, hlen] at h
    exact h
  · have h := SerialParser.read_n_content CMD_QUEUE_SIZE _ _ hwf2 hcontent
    rw [hlen] at h
    rw [h, List.map_map]
    rfl
  · intro full cmd payload payload_len hfull
    exact SerialParser.enqueue_command_full _ _ _ _ _ (by omega)

theorem queue_overflow_keeps_oldest_witness :
    (1 ≤ 2 ∧ SerialParser.queue_wf 2 (SerialParser.init 4 2 0x02) ∧
      (SerialParser.init 4 2 0x02).queue_count = 0 ∧
      2 < [(0x01, [0x0A], 1), (0x02, [0x0B, 0x0C], 2), (0x03, [], 0)].length ∧
      (∀ x ∈ [(0x01, [0x0A], 1), (0x02, [0x0B, 0x0C], 2), ((0x03 : Nat), ([] : List Nat), 0)],
        x.2.2 ≤ x.2.1.length)) ∧
    ([(0x01, [0x0A], 1), (0x02, [0x0B, 0x0C], 2), (0x03, [], 0)].foldl
      (fun q x => SerialParser.enqueue_command 2 q x.1 x.2.1 x.2.2)
      (SerialParser.init 4 2 0x02)).queue_count = 2 :=
  ⟨by decide,
   (queue_overflow_keeps_oldest 2 (SerialParser.init 4 2 0x02)
      [(0x01, [0x0A], 1), (0x02, [0x0B, 0x0C], 2), (0x03, [], 0)]
      (by decide) (by decide) (by decide) (by decide) (by decide)).1⟩

/-- C10: FIFO.  The ring buffer refines a bounded list: for every sequence of
`enqueue_command` and `read` calls from an empty queue, the commands waiting in the ring
buffer (the `queue_count` slots from `queue_head` on, modulo `CMD_QUEUE_SIZE`) are the
list got by appending on each enqueue while shorter than `CMD_QUEUE_SIZE` and dropping
the first element on each read; each read returns that first element (command code,
payload length and payload bytes as enqueued), and returns null and changes nothing when
nothing is waiting. -/
theorem queue_refines_bounded_list (CMD_QUEUE_SIZE : Nat) (parser : SerialParser)
    (ops : List QueueOp)
    (hwf : SerialParser.queue_wf CMD_QUEUE_SIZE parser)
    (hempty : parser.queue_count = 0)
    (hvalid : ∀ op ∈ ops, op.valid) :
    (SerialParser.pending CMD_QUEUE_SIZE
      (SerialParser.run_ops CMD_QUEUE_SIZE parser ops).1).map Command.content
      = (bounded_list_ops CMD_QUEUE_SIZE [] ops).1 ∧
    (SerialParser.run_ops CMD_QUEUE_SIZE parser ops).2.map (Option.map Command.content)
      = (bounded_list_ops CMD_QUEUE_SIZE [] ops).2 ∧
    (∀ q : SerialParser, SerialParser.pending CMD_QUEUE_SIZE q = [] →
      SerialParser.read CMD_QUEUE_SIZE q = (none, q)) := by
  have hp : (SerialParser.pending CMD_QUEUE_SIZE parser).map Command.content = [] := by
    simp [SerialParser.pending, hempty]
  obtain ⟨h1, h2⟩ := SerialParser.run_ops_simulates CMD_QUEUE_SIZE ops parser [] hwf hp hvalid
  refine ⟨h1, h2, ?_⟩
  intro q hq
  have h0 : q.queue_count = 0 := by
    rw [← SerialParser.pending_length CMD_QUEUE_SIZE q, hq]; rfl
  exact SerialParser.read_empty _ _ h0

theorem queue_refines_bounded_list_witness :
    (SerialParser.queue_wf 2 (SerialParser.init 4 2 0x02) ∧
      (SerialParser.init 4 2 0x02).queue_count = 0 ∧
      (∀ op ∈ [QueueOp.enqueue 0x01 [0x0A] 1, QueueOp.enqueue 0x02 [0x0B, 0x0C] 2,
          QueueOp.read, QueueOp.enqueue 0x03 [] 0, QueueOp.enqueue 0x04 [0x0D] 1,
          QueueOp.read, QueueOp.read, QueueOp.read], op.valid)) ∧
    (SerialParser.run_ops 2 (SerialParser.init 4 2 0x02)
        [QueueOp.enqueue 0x01 [0x0A] 1, QueueOp.enqueue 0x02 [0x0B, 0x0C] 2,
          QueueOp.read, QueueOp.enqueue 0x03 [] 0, QueueOp.enqueue 0x04 [0x0D] 1,
          QueueOp.read, QueueOp.read, QueueOp.read]).2.map (Option.map Command.content)
      = (bounded_list_ops 2 []
        [QueueOp.enqueue 0x01 [0x0A] 1, QueueOp.enqueue 0x02 [0x0B, 0x0C] 2,
          QueueOp.read, QueueOp.enqueue 0x03 [] 0, QueueOp.enqueue 0x04 [0x0D] 1,
          QueueOp.read, QueueOp.read, QueueOp.read]).2 :=
  ⟨by decide,
   (queue_refines_bounded_list 2 (SerialParser.init 4 2 0x02)
      [QueueOp.enqueue 0x01 [0x0A] 1, QueueOp.enqueue 0x02 [0x0B, 0x0C] 2,
        QueueOp.read, QueueOp.enqueue 0x03 [] 0, QueueOp.enqueue 0x04 [0x0D] 1,
        QueueOp.read, QueueOp.read, QueueOp.read]
      (by decide) (by decide) (by decide)).2.1⟩

/-! ## Parser: length field and checksum -/

namespace SerialParser

/-- The delimiter, header and payload of a frame for this parser take it to
`READ_CHECKSUM` with the CRC accumulated over exactly those bytes. -/
theorem feed_frame_body (MP QS : Nat) (p : SerialParser) (a c : Nat) (pl tail : List Nat)
    (ha : a = p.address ∨ a = BROADCAST) (hmax : pl.length ≤ MP) (h16 : pl.length < 65536)
    (hbuf : p.payload.length = MP) :
    feed MP QS p
        (START :: (escape_all ([a, c, pl.length % 256, pl.length / 256] ++ pl) ++ tail)) =
      feed MP QS
        { p with
          state := ParserState.READ_CHECKSUM
          cmd := c
          len := pl.length
          len_bytes_read := 0
          payload := pl ++ p.payload.drop pl.length
          payload_len := pl.length
          crc8_acc := crc8 ([a, c, pl.length % 256, pl.length / 256] ++ pl)
            ([a, c, pl.length % 256, pl.length / 256] ++ pl).length
          escape_next := false } tail := by
  have hK : crc8 ([a, c, pl.length % 256, pl.length / 256] ++ pl)
      ([a, c, pl.length % 256, pl.length / 256] ++ pl).length
      = pl.foldl update_crc8 ([a, c, pl.length % 256, pl.length / 256].foldl update_crc8 0) := by
    rw [crc8_eq_foldl, List.foldl_append]
  rw [hK, escape_all_append, List.append_assoc,
    feed_header MP QS p a c pl.length _ ha h16 hmax]
  by_cases hpl : pl = []
  · subst hpl
    simp [escape_all]
  · have hpos : pl.length > 0 := List.length_pos.mpr hpl
    rw [if_pos hpos]
    rw [feed_payload MP QS pl _ [] p.payload _ rfl rfl (by simp) rfl (by simp) hmax
      (by omega) hpl]
    simp

/-- The two length bytes, low byte first, in a parser that is in `READ_LEN`. -/
theorem feed_length_bytes (MP QS : Nat) (p : SerialParser) (lo hi : Nat) (tail : List Nat)
    (hs : p.state = ParserState.READ_LEN) (h0 : p.len_bytes_read = 0)
    (he : p.escape_next = false) (hlo : lo < 256) (hhi : hi < 256) :
    feed MP QS p (escape_byte lo ++ (escape_byte hi ++ tail)) =
      feed MP QS
        (if 0 < lo + 256 * hi ∧ lo + 256 * hi ≤ MP then
          { p with
            len := lo + 256 * hi
            crc8_acc := update_crc8 (update_crc8 p.crc8_acc lo) hi
            len_bytes_read := 0
            state := ParserState.READ_PAYLOAD }
        else if lo + 256 * hi = 0 then
          { p with
            len := 0
            crc8_acc := update_crc8 (update_crc8 p.crc8_acc lo) hi
            len_bytes_read := 0
            state := ParserState.READ_CHECKSUM }
        else p.reset) tail := by
  obtain ⟨address, state, cmd, len, lbr, payload, payload_len, checksum, crc, esc, queue,
    qh, qt, qc⟩ := p
  simp only at hs h0 he
  subst hs h0 he
  have hlen : (lo ||| hi <<< 8) % 65536 = lo + 256 * hi := by
    have h := len_le16 (lo + 256 * hi) (by omega)
    have e1 : (lo + 256 * hi) % 256 = lo := by omega
    have e2 : (lo + 256 * hi) / 256 = hi := by omega
    rw [e1, e2] at h
    exact h
  rw [feed_escape_byte MP QS _ lo _ (by simp) rfl]
  simp only [dispatch, if_true]
  rw [feed_escape_byte MP QS _ hi _ (by simp) rfl]
  simp only [dispatch, hlen]
  by_cases h1 : 0 < lo + 256 * hi ∧ lo + 256 * hi ≤ MP
  · simp [h1]
  · by_cases h2 : lo + 256 * hi = 0
    · simp [h2]
    · have h3 : ¬ (lo + 256 * hi > 0 ∧ lo + 256 * hi ≤ MP) := h1
      simp [h1, h2, h3, reset]

end SerialParser

namespace SerialParser

/-- One `parse` call in `READ_CHECKSUM` that reaches the `switch`: `validate` runs on the
unescaped byte with the escape flag already clear. -/
theorem parse_checksum_step (MP QS : Nat) (q : SerialParser) (b : Nat)
    (hs : q.state = ParserState.READ_CHECKSUM) (hb : b ≠ START)
    (hdata : ¬ (q.escape_next = false ∧ b = ESCAPE)) :
    parse MP QS q b =
      validate QS
        { q with
          escape_next := false
          checksum := if q.escape_next then b ^^^ ESCAPE_MASK else b
          state := ParserState.WAIT_START } := by
  obtain ⟨address, state, cmd, len, lbr, payload, payload_len, checksum, crc, esc, queue,
    qh, qt, qc⟩ := q
  simp only at hs hdata
  subst hs
  unfold parse
  rw [if_neg hb]
  cases esc with
  | true => simp [unescape, dispatch]
  | false =>
    have hne : b ≠ ESCAPE := fun h => hdata ⟨rfl, h⟩
    simp [unescape, dispatch, hne]

theorem validate_fields (QS : Nat) (q : SerialParser) :
    (validate QS q).state = q.state ∧ (validate QS q).crc8_acc = 0 ∧
    (validate QS q).escape_next = q.escape_next ∧
    (q.crc8_acc ≠ q.checksum →
      (validate QS q).queue = q.queue ∧ (validate QS q).queue_head = q.queue_head ∧
      (validate QS q).queue_tail = q.queue_tail ∧
      (validate QS q).queue_count = q.queue_count) := by
  by_cases h : q.crc8_acc = q.checksum
  · by_cases hr : q.queue_count < QS
    · simp [validate, enqueue_command, h, hr]
    · simp [validate, enqueue_command, h, hr]
  · simp [validate, h]

end SerialParser

/-- C11: length handling.  In `READ_LEN` the two length bytes (escaped on the wire where
needed) are combined low byte first into `length = lo + 256 * hi`.  After the high byte
the parser is in `READ_PAYLOAD` when `0 < length ≤ MAX_PAYLOAD_SIZE`, in `READ_CHECKSUM`
when `length = 0`, and back in `WAIT_START` when `length > MAX_PAYLOAD_SIZE`; in the last
case, whatever bytes other than the delimiter follow, the parser stays in `WAIT_START`
and the queue is as it was before the length bytes. -/
theorem length_bytes_select_state (MAX_PAYLOAD_SIZE CMD_QUEUE_SIZE : Nat)
    (parser : SerialParser) (lo hi : Nat)
    (hs : parser.state = ParserState.READ_LEN) (h0 : parser.len_bytes_read = 0)
    (he : parser.escape_next = false) (hlo : lo < 256) (hhi : hi < 256) :
    (0 < lo + 256 * hi ∧ lo + 256 * hi ≤ MAX_PAYLOAD_SIZE →
      (SerialParser.feed MAX_PAYLOAD_SIZE CMD_QUEUE_SIZE parser
        (escape_byte lo ++ escape_byte hi)).state = ParserState.READ_PAYLOAD ∧
      (SerialParser.feed MAX_PAYLOAD_SIZE CMD_QUEUE_SIZE parser
        (escape_byte lo ++ escape_byte hi)).len = lo + 256 * hi) ∧
    (lo + 256 * hi = 0 →
      (SerialParser.feed MAX_PAYLOAD_SIZE CMD_QUEUE_SIZE parser
        (escape_byte lo ++ escape_byte hi)).state = ParserState.READ_CHECKSUM ∧
      (SerialParser.feed MAX_PAYLOAD_SIZE CMD_QUEUE_SIZE parser
        (escape_byte lo ++ escape_byte hi)).len = 0) ∧
    (MAX_PAYLOAD_SIZE < lo + 256 * hi →
      ∀ bytes : List Nat, START ∉ bytes →
        (SerialParser.feed MAX_PAYLOAD_SIZE CMD_QUEUE_SIZE parser
          (escape_byte lo ++ escape_byte hi ++ bytes)).state = ParserState.WAIT_START ∧
        (SerialParser.feed MAX_PAYLOAD_SIZE CMD_QUEUE_SIZE parser
          (escape_byte lo ++ escape_byte hi ++ bytes)).queue = parser.queue ∧
        (SerialParser.feed MAX_PAYLOAD_SIZE CMD_QUEUE_SIZE parser
          (escape_byte lo ++ escape_byte hi ++ bytes)).queue_head = parser.queue_head ∧
        (SerialParser.feed MAX_PAYLOAD_SIZE CMD_QUEUE_SIZE parser
          (escape_byte lo ++ escape_byte hi ++ bytes)).queue_tail = parser.queue_tail ∧
        (SerialParser.feed MAX_PAYLOAD_SIZE CMD_QUEUE_SIZE parser
          (escape_byte lo ++ escape_byte hi ++ bytes)).queue_count = parser.queue_count) := by
  have key := fun tail => SerialParser.feed_length_bytes MAX_PAYLOAD_SIZE CMD_QUEUE_SIZE
    parser lo hi tail hs h0 he hlo hhi
  have key0 := key []
  rw [List.append_nil] at key0
  refine ⟨?_, ?_, ?_⟩
  · intro h
    rw [key0, if_pos h]
    exact ⟨rfl, rfl⟩
  · intro h
    have hn : ¬ (0 < lo + 256 * hi ∧ lo + 256 * hi ≤ MAX_PAYLOAD_SIZE) := by omega
    rw [key0, if_neg hn, if_pos h]
    exact ⟨rfl, rfl⟩
  · intro h bytes hb
    have hn : ¬ (0 < lo + 256 * hi ∧ lo + 256 * hi ≤ MAX_PAYLOAD_SIZE) := by omega
    have hz : ¬ (lo + 256 * hi = 0) := by omega
    rw [List.append_assoc, key bytes, if_neg hn, if_neg hz,
      SerialParser.feed_wait_start _ _ bytes parser.reset rfl rfl hb]
    exact ⟨rfl, rfl, rfl, rfl, rfl⟩

theorem length_bytes_select_state_witness :
    ((SerialParser.feed 8 2 (SerialParser.init 8 2 0x02) [0xAA, 0x02, 0x03]).state
        = ParserState.READ_LEN ∧
      (SerialParser.feed 8 2 (SerialParser.init 8 2 0x02) [0xAA, 0x02, 0x03]).len_bytes_read
        = 0 ∧
      (SerialParser.feed 8 2 (SerialParser.init 8 2 0x02) [0xAA, 0x02, 0x03]).escape_next
        = false ∧ 0x09 < 256 ∧ 0x00 < 256) ∧
    (8 < 0x09 + 256 * 0x00 →
      ∀ bytes : List Nat, START ∉ bytes →
        (SerialParser.feed 8 2
          (SerialParser.feed 8 2 (SerialParser.init 8 2 0x02) [0xAA, 0x02, 0x03])
          (escape_byte 0x09 ++ escape_byte 0x00 ++ bytes)).state = ParserState.WAIT_START ∧
        (SerialParser.feed 8 2
          (SerialParser.feed 8 2 (SerialParser.init 8 2 0x02) [0xAA, 0x02, 0x03])
          (escape_byte 0x09 ++ escape_byte 0x00 ++ bytes)).queue
          = (SerialParser.feed 8 2 (SerialParser.init 8 2 0x02) [0xAA, 0x02, 0x03]).queue ∧
        (SerialParser.feed 8 2
          (SerialParser.feed 8 2 (SerialParser.init 8 2 0x02) [0xAA, 0x02, 0x03])
          (escape_byte 0x09 ++ escape_byte 0x00 ++ bytes)).queue_head
          = (SerialParser.feed 8 2 (SerialParser.init 8 2 0x02)
              [0xAA, 0x02, 0x03]).queue_head ∧
        (SerialParser.feed 8 2
          (SerialParser.feed 8 2 (SerialParser.init 8 2 0x02) [0xAA, 0x02, 0x03])
          (escape_byte 0x09 ++ escape_byte 0x00 ++ bytes)).queue_tail
          = (SerialParser.feed 8 2 (SerialParser.init 8 2 0x02)
              [0xAA, 0x02, 0x03]).queue_tail ∧
        (SerialParser.feed 8 2
          (SerialParser.feed 8 2 (SerialParser.init 8 2 0x02) [0xAA, 0x02, 0x03])
          (escape_byte 0x09 ++ escape_byte 0x00 ++ bytes)).queue_count
          = (SerialParser.feed 8 2 (SerialParser.init 8 2 0x02)
              [0xAA, 0x02, 0x03]).queue_count) :=
  ⟨by decide,
   (length_bytes_select_state 8 2
      (SerialParser.feed 8 2 (SerialParser.init 8 2 0x02) [0xAA, 0x02, 0x03]) 0x09 0x00
      (by decide) (by decide) (by decide) (by decide) (by decide)).2.2⟩

/-- C12: checksum validation.  After the delimiter, header and payload of a frame the
parser is in `READ_CHECKSUM` and its CRC accumulator is the CRC8 of the unescaped
address, command, both length bytes and all payload bytes.  The checksum byte `k`
(escaped on the wire where needed) then enqueues the command `{cmd, payload,
payload_len}` when `k` equals that CRC and the queue is not full, and leaves the queue
unchanged otherwise; either way the parser is in `WAIT_START` with CRC accumulator `0x00`
and the escape flag clear.  The same holds for one `parse` call in `READ_CHECKSUM` from
any parser state, with the accumulator as it stands. -/
theorem checksum_byte_decides_enqueue (MAX_PAYLOAD_SIZE CMD_QUEUE_SIZE : Nat)
    (parser : SerialParser) (a c : Nat) (p : List Nat) (k : Nat)
    (ha : a = parser.address ∨ a = BROADCAST)
    (hmax : p.length ≤ MAX_PAYLOAD_SIZE) (h16 : p.length < 65536)
    (hbuf : parser.payload.length = MAX_PAYLOAD_SIZE)
    (hwf : SerialParser.queue_wf CMD_QUEUE_SIZE parser) :
    ((SerialParser.feed MAX_PAYLOAD_SIZE CMD_QUEUE_SIZE parser
        (START :: escape_all ([a, c, p.length % 256, p.length / 256] ++ p))).state
        = ParserState.READ_CHECKSUM ∧
      (SerialParser.feed MAX_PAYLOAD_SIZE CMD_QUEUE_SIZE parser
        (START :: escape_all ([a, c, p.length % 256, p.length / 256] ++ p))).crc8_acc
        = crc8 ([a, c, p.length % 256, p.length / 256] ++ p)
            ([a, c, p.length % 256, p.length / 256] ++ p).length) ∧
    ((SerialParser.feed MAX_PAYLOAD_SIZE CMD_QUEUE_SIZE parser
        (START :: (escape_all ([a, c, p.length % 256, p.length / 256] ++ p)
          ++ escape_byte k))).state = ParserState.WAIT_START ∧
      (SerialParser.feed MAX_PAYLOAD_SIZE CMD_QUEUE_SIZE parser
        (START :: (escape_all ([a, c, p.length % 256, p.length / 256] ++ p)
          ++ escape_byte k))).crc8_acc = 0x00 ∧
      (SerialParser.feed MAX_PAYLOAD_SIZE CMD_QUEUE_SIZE parser
        (START :: (escape_all ([a, c, p.length % 256, p.length / 256] ++ p)
          ++ escape_byte k))).escape_next = false) ∧
    (k = crc8 ([a, c, p.length % 256, p.length / 256] ++ p)
          ([a, c, p.length % 256, p.length / 256] ++ p).length ∧
        parser.queue_count < CMD_QUEUE_SIZE →
      (SerialParser.feed MAX_PAYLOAD_SIZE CMD_QUEUE_SIZE parser
        (START :: (escape_all ([a, c, p.length % 256, p.length / 256] ++ p)
          ++ escape_byte k))).queue_count = parser.queue_count + 1 ∧
      ∃ x : Command,
        SerialParser.pending CMD_QUEUE_SIZE
          (SerialParser.feed MAX_PAYLOAD_SIZE CMD_QUEUE_SIZE parser
            (START :: (escape_all ([a, c, p.length % 256, p.length / 256] ++ p)
              ++ escape_byte k)))
          = SerialParser.pending CMD_QUEUE_SIZE parser ++ [x] ∧
        x.content = (c, p.length, p)) ∧
    (¬ (k = crc8 ([a, c, p.length % 256, p.length / 256] ++ p)
          ([a, c, p.length % 256, p.length / 256] ++ p).length ∧
        parser.queue_count < CMD_QUEUE_SIZE) →
      (SerialParser.feed MAX_PAYLOAD_SIZE CMD_QUEUE_SIZE parser
        (START :: (escape_all ([a, c, p.length % 256, p.length / 256] ++ p)
          ++ escape_byte k))).queue = parser.queue ∧
      (SerialParser.feed MAX_PAYLOAD_SIZE CMD_QUEUE_SIZE parser
        (START :: (escape_all ([a, c, p.length % 256, p.length / 256] ++ p)
          ++ escape_byte k))).queue_head = parser.queue_head ∧
      (SerialParser.feed MAX_PAYLOAD_SIZE CMD_QUEUE_SIZE parser
        (START :: (escape_all ([a, c, p.length % 256, p.length / 256] ++ p)
          ++ escape_byte k))).queue_tail = parser.queue_tail ∧
      (SerialParser.feed MAX_PAYLOAD_SIZE CMD_QUEUE_SIZE parser
        (START :: (escape_all ([a, c, p.length % 256, p.length / 256] ++ p)
          ++ escape_byte k))).queue_count = parser.queue_count) ∧
    (∀ (q : SerialParser) (b : Nat), q.state = ParserState.READ_CHECKSUM → b ≠ START →
      ¬ (q.escape_next = false ∧ b = ESCAPE) →
      (SerialParser.parse MAX_PAYLOAD_SIZE CMD_QUEUE_SIZE q b).state
        = ParserState.WAIT_START ∧
      (SerialParser.parse MAX_PAYLOAD_SIZE CMD_QUEUE_SIZE q b).crc8_acc = 0x00 ∧
      (SerialParser.parse MAX_PAYLOAD_SIZE CMD_QUEUE_SIZE q b).escape_next = false ∧
      (q.crc8_acc ≠ (if q.escape_next then b ^^^ ESCAPE_MASK else b) →
        (SerialParser.parse MAX_PAYLOAD_SIZE CMD_QUEUE_SIZE q b).queue = q.queue ∧
        (SerialParser.parse MAX_PAYLOAD_SIZE CMD_QUEUE_SIZE q b).queue_head = q.queue_head ∧
        (SerialParser.parse MAX_PAYLOAD_SIZE CMD_QUEUE_SIZE q b).queue_tail = q.queue_tail ∧
        (SerialParser.parse MAX_PAYLOAD_SIZE CMD_QUEUE_SIZE q b).queue_count
          = q.queue_count)) := by
  have hgeneral : ∀ (q : SerialParser) (b : Nat), q.state = ParserState.READ_CHECKSUM →
      b ≠ START → ¬ (q.escape_next = false ∧ b = ESCAPE) →
      (SerialParser.parse MAX_PAYLOAD_SIZE CMD_QUEUE_SIZE q b).state
        = ParserState.WAIT_START ∧
      (SerialParser.parse MAX_PAYLOAD_SIZE CMD_QUEUE_SIZE q b).crc8_acc = 0x00 ∧
      (SerialParser.parse MAX_PAYLOAD_SIZE CMD_QUEUE_SIZE q b).escape_next = false ∧
      (q.crc8_acc ≠ (if q.escape_next then b ^^^ ESCAPE_MASK else b) →
        (SerialParser.parse MAX_PAYLOAD_SIZE CMD_QUEUE_SIZE q b).queue = q.queue ∧
        (SerialParser.parse MAX_PAYLOAD_SIZE CMD_QUEUE_SIZE q b).queue_head = q.queue_head ∧
        (SerialParser.parse MAX_PAYLOAD_SIZE CMD_QUEUE_SIZE q b).queue_tail = q.queue_tail ∧
        (SerialParser.parse MAX_PAYLOAD_SIZE CMD_QUEUE_SIZE q b).queue_count
          = q.queue_count) := by
    intro q b hs hb hdata
    rw [SerialParser.parse_checksum_step _ _ q b hs hb hdata]
    obtain ⟨h1, h2, h3, h4⟩ := SerialParser.validate_fields CMD_QUEUE_SIZE
      { q with
        escape_next := false
        checksum := if q.escape_next then b ^^^ ESCAPE_MASK else b
        state := ParserState.WAIT_START }
    exact ⟨h1, h2, h3, fun hne => h4 hne⟩
  have hbody := fun tail => SerialParser.feed_frame_body MAX_PAYLOAD_SIZE CMD_QUEUE_SIZE
    parser a c p tail ha hmax h16 hbuf
  have hbody0 := hbody []
  rw [List.append_nil] at hbody0
  generalize crc8 ([a, c, p.length % 256, p.length / 256] ++ p)
    ([a, c, p.length % 256, p.length / 256] ++ p).length = K at hbody hbody0 ⊢
  have hk : escape_byte k = escape_byte k ++ [] := (List.append_nil _).symm
  have hfull := hbody (escape_byte k)
  rw [hk, SerialParser.feed_escape_byte _ _ _ k [] (by simp) rfl,
    SerialParser.dispatch_checksum _ _ _ k rfl, ← hk] at hfull
  rw [hbody0, hfull]
  refine ⟨⟨rfl, rfl⟩, ?_, ?_, ?_, hgeneral⟩
  · simp only [SerialParser.feed, List.foldl_nil, SerialParser.validate]
    split <;> refine ⟨?_, ?_, ?_⟩ <;>
      first
      | trivial
      | (simp only [SerialParser.enqueue_command]; split <;> trivial)
  · rintro ⟨hkK, hroom⟩
    subst hkK
    simp only [SerialParser.feed, List.foldl_nil, SerialParser.validate, if_true]
    refine ⟨by simp only [SerialParser.enqueue_command, if_pos hroom], ?_⟩
    refine ⟨{ cmd := c
              payload_len := p.length
              payload := memcpy (parser.queue.getD parser.queue_tail default).payload
                (p ++ parser.payload.drop p.length) p.length }, ?_, ?_⟩
    · exact SerialParser.pending_enqueue_command CMD_QUEUE_SIZE
        { parser with
          state := ParserState.WAIT_START
          cmd := c
          len := p.length
          len_bytes_read := 0
          payload := p ++ parser.payload.drop p.length
          payload_len := p.length
          checksum := k
          crc8_acc := k
          escape_next := false }
        c (p ++ parser.payload.drop p.length) p.length hwf hroom
    · rw [SerialParser.memcpy_content _ _ _ _ (by simp)]
      simp
  · intro hnot
    simp only [SerialParser.feed, List.foldl_nil, SerialParser.validate]
    by_cases hkK : K = k
    · have hfullq : ¬ parser.queue_count < CMD_QUEUE_SIZE := fun h => hnot ⟨hkK.symm, h⟩
      simp only [if_pos hkK, SerialParser.enqueue_command, if_neg hfullq]
      refine ⟨?_, ?_, ?_, ?_⟩ <;> trivial
    · simp only [if_neg hkK]
      refine ⟨?_, ?_, ?_, ?_⟩ <;> trivial

theorem checksum_byte_decides_enqueue_witness :
    ((0x02 = (SerialParser.init 8 2 0x02).address ∨ 0x02 = BROADCAST) ∧
      [0x01, 0xAA, 0x07].length ≤ 8 ∧ [0x01, 0xAA, 0x07].length < 65536 ∧
      (SerialParser.init 8 2 0x02).payload.length = 8 ∧
      SerialParser.queue_wf 2 (SerialParser.init 8 2 0x02)) ∧
    (¬ (0x81 = crc8 ([0x02, 0x03, [0x01, 0xAA, 0x07].length % 256,
            [0x01, 0xAA, 0x07].length / 256] ++ [0x01, 0xAA, 0x07])
          ([0x02, 0x03, [0x01, 0xAA, 0x07].length % 256,
            [0x01, 0xAA, 0x07].length / 256] ++ [0x01, 0xAA, 0x07]).length ∧
        (SerialParser.init 8 2 0x02).queue_count < 2) →
      (SerialParser.feed 8 2 (SerialParser.init 8 2 0x02)
        (START :: (escape_all ([0x02, 0x03, [0x01, 0xAA, 0x07].length % 256,
            [0x01, 0xAA, 0x07].length / 256] ++ [0x01, 0xAA, 0x07])
          ++ escape_byte 0x81))).queue = (SerialParser.init 8 2 0x02).queue ∧
      (SerialParser.feed 8 2 (SerialParser.init 8 2 0x02)
        (START :: (escape_all ([0x02, 0x03, [0x01, 0xAA, 0x07].length % 256,
            [0x01, 0xAA, 0x07].length / 256] ++ [0x01, 0xAA, 0x07])
          ++ escape_byte 0x81))).queue_head = (SerialParser.init 8 2 0x02).queue_head ∧
      (SerialParser.feed 8 2 (SerialParser.init 8 2 0x02)
        (START :: (escape_all ([0x02, 0x03, [0x01, 0xAA, 0x07].length % 256,
            [0x01, 0xAA, 0x07].length / 256] ++ [0x01, 0xAA, 0x07])
          ++ escape_byte 0x81))).queue_tail = (SerialParser.init 8 2 0x02).queue_tail ∧
      (SerialParser.feed 8 2 (SerialParser.init 8 2 0x02)
        (START :: (escape_all ([0x02, 0x03, [0x01, 0xAA, 0x07].length % 256,
            [0x01, 0xAA, 0x07].length / 256] ++ [0x01, 0xAA, 0x07])
          ++ escape_byte 0x81))).queue_count = (SerialParser.init 8 2 0x02).queue_count) :=
  ⟨by decide,
   (checksum_byte_decides_enqueue 8 2 (SerialParser.init 8 2 0x02) 0x02 0x03
      [0x01, 0xAA, 0x07] 0x81 (by decide) (by decide) (by decide) (by decide)
      (by decide)).2.2.2.1⟩

namespace SerialParser

theorem validate_payload (QS : Nat) (p : SerialParser) : (validate QS p).payload = p.payload := by
  unfold validate enqueue_command
  simp only
  split
  · split <;> rfl
  · rfl

theorem dispatch_payload_eq (MP QS : Nat) (p : SerialParser) (x : Nat) :
    (dispatch MP QS p x).payload =
      if p.state = ParserState.READ_PAYLOAD ∧ p.payload_len < p.len ∧ p.payload_len < MP then
        p.payload.set p.payload_len x
      else p.payload := by
  obtain ⟨address, state, cmd, len, lbr, payload, payload_len, checksum, crc, esc, queue,
    qh, qt, qc⟩ := p
  cases state
  case READ_PAYLOAD =>
    simp only [dispatch, true_and]
    split <;> split <;> rfl
  case READ_CHECKSUM =>
    simp only [dispatch, validate_payload]
    simp
  case READ_LEN =>
    simp only [dispatch, reset]
    split
    · simp
    · split
      · simp
      · split <;> simp
  case READ_CMD => simp [dispatch]
  case READ_ADDR =>
    simp only [dispatch, reset]
    split <;> simp
  case WAIT_START => simp [dispatch, reset]

/-- The function `payload_write` tells where `parse` writes the payload buffer. -/
theorem parse_payload_eq (MP QS : Nat) (p : SerialParser) (b : Nat) :
    (payload_write MP p b = none → (parse MP QS p b).payload = p.payload) ∧
    (∀ i, payload_write MP p b = some i →
      ∃ x, (parse MP QS p b).payload = p.payload.set i x) := by
  unfold parse payload_write
  by_cases hb : b = START
  · simp only [if_pos hb]
    exact ⟨fun _ => rfl, fun i h => absurd h (by simp)⟩
  · simp only [if_neg hb]
    generalize (if p.state ≠ ParserState.WAIT_START then unescape p.escape_next b
      else (p.escape_next, some b)) = r
    cases hr : r.2 with
    | none => exact ⟨fun _ => rfl, fun i h => absurd h (by simp)⟩
    | some x =>
      simp only [dispatch_payload_eq]
      split
      · exact ⟨fun h => absurd h (by simp), fun i h => ⟨x, by
          simp only [Option.some.injEq] at h; rw [h]⟩⟩
      · exact ⟨fun _ => rfl, fun i h => absurd h (by simp)⟩

end SerialParser

/-! ## Parser: payload bounds -/

namespace SerialParser

theorem validate_payload_bounded (MP QS : Nat) (p : SerialParser)
    (h : payload_bounded MP p) (hs : p.state = ParserState.WAIT_START) :
    payload_bounded MP (validate QS p) := by
  obtain ⟨h1, _, _, h4⟩ := h
  obtain ⟨address, state, cmd, len, lbr, payload, payload_len, checksum, crc, esc, queue,
    qh, qt, qc⟩ := p
  simp only at h1 h4 hs
  subst hs
  unfold validate enqueue_command
  simp only
  split
  · split
    · refine ⟨h1, by simp, by simp, ?_⟩
      intro c hc
      rcases List.mem_or_eq_of_mem_set hc with hc | hc
      · exact h4 c hc
      · subst hc; exact h1
    · exact ⟨h1, by simp, by simp, h4⟩
  · exact ⟨h1, by simp, by simp, h4⟩

theorem dispatch_payload_bounded (MP QS : Nat) (p : SerialParser) (b : Nat)
    (h : payload_bounded MP p) : payload_bounded MP (dispatch MP QS p b) := by
  obtain ⟨h1, h2, h3, h4⟩ := h
  obtain ⟨address, state, cmd, len, lbr, payload, payload_len, checksum, crc, esc, queue,
    qh, qt, qc⟩ := p
  simp only at h1 h2 h3 h4
  cases state
  case WAIT_START =>
    simp only [dispatch, reset]
    exact ⟨Nat.zero_le _, by simp, by simp, h4⟩
  case READ_ADDR =>
    have h0 : payload_len = 0 := h3 (Or.inl rfl)
    subst h0
    simp only [dispatch, reset]
    split
    · exact ⟨Nat.zero_le _, by simp, by simp, h4⟩
    · exact ⟨Nat.zero_le _, by simp, by simp, h4⟩
  case READ_CMD =>
    have h0 : payload_len = 0 := h3 (Or.inr (Or.inl rfl))
    subst h0
    simp only [dispatch]
    exact ⟨Nat.zero_le _, by simp, by simp, h4⟩
  case READ_LEN =>
    have h0 : payload_len = 0 := h3 (Or.inr (Or.inr rfl))
    subst h0
    simp only [dispatch, reset]
    split
    · exact ⟨Nat.zero_le _, by simp, by simp, h4⟩
    · split
      · rename_i hlen
        exact ⟨Nat.zero_le _, fun _ => ⟨hlen.1, hlen.2, hlen.1⟩, by simp, h4⟩
      · split
        · exact ⟨Nat.zero_le _, by simp, by simp, h4⟩
        · exact ⟨Nat.zero_le _, by simp, by simp, h4⟩
  case READ_PAYLOAD =>
    obtain ⟨hp1, hp2, hp3⟩ := h2 rfl
    have hg : payload_len < len ∧ payload_len < MP := ⟨hp3, by omega⟩
    simp only [dispatch, hg, and_self, if_true]
    split
    · exact ⟨by simp only; omega, by simp, by simp, h4⟩
    · rename_i hlt
      exact ⟨by simp only; omega, fun _ => ⟨hp1, hp2, by simp only at hlt ⊢; omega⟩,
        by simp, h4⟩
  case READ_CHECKSUM =>
    simp only [dispatch]
    exact validate_payload_bounded MP QS _ ⟨h1, by simp, by simp, h4⟩ rfl

theorem parse_payload_bounded (MP QS : Nat) (p : SerialParser) (b : Nat)
    (h : payload_bounded MP p) : payload_bounded MP (parse MP QS p b) := by
  unfold parse
  by_cases hb : b = START
  · rw [if_pos hb]
    exact ⟨Nat.zero_le _, by simp [reset], by simp [reset], h.2.2.2⟩
  · rw [if_neg hb]
    simp only
    generalize (if p.state ≠ ParserState.WAIT_START then unescape p.escape_next b
      else (p.escape_next, some b)) = r
    cases hr : r.2 with
    | none => exact h
    | some x => exact dispatch_payload_bounded MP QS { p with escape_next := r.1 } x h

theorem feed_payload_bounded (MP QS : Nat) (bytes : List Nat) : ∀ (p : SerialParser),
    payload_bounded MP p → payload_bounded MP (feed MP QS p bytes) := by
  induction bytes with
  | nil => intro p h; exact h
  | cons b rest ih =>
    intro p h
    rw [feed_cons]
    exact ih _ (parse_payload_bounded MP QS p b h)

theorem init_payload_bounded (MP QS address : Nat) :
    payload_bounded MP (init MP QS address) := by
  refine ⟨Nat.zero_le _, by simp [init], by simp [init], ?_⟩
  intro c hc
  simp only [init] at hc
  rw [List.eq_of_mem_replicate hc]
  exact Nat.zero_le _

theorem payload_write_lt (MP : Nat) (p : SerialParser) (b i : Nat)
    (h : payload_write MP p b = some i) : i < MP := by
  unfold payload_write at h
  split at h
  · exact absurd h (by simp)
  · simp only at h
    split at h
    · exact absurd h (by simp)
    · split at h
      · rename_i hg
        simp only [Option.some.injEq] at h
        omega
      · exact absurd h (by simp)

end SerialParser

/-- C13: no payload overflow.  After any byte sequence fed to `parse` from the initial
state, `payload_len ≤ MAX_PAYLOAD_SIZE`; in `READ_PAYLOAD`, `0 < len ≤ MAX_PAYLOAD_SIZE`
and `payload_len < len`; every command in the queue has
`payload_len ≤ MAX_PAYLOAD_SIZE`; and the next `parse` call writes the payload buffer, if
at all, at one index, which is below `MAX_PAYLOAD_SIZE`. -/
theorem parse_never_overflows_payload (MAX_PAYLOAD_SIZE CMD_QUEUE_SIZE address : Nat)
    (s : List Nat) :
    (SerialParser.feed MAX_PAYLOAD_SIZE CMD_QUEUE_SIZE
      (SerialParser.init MAX_PAYLOAD_SIZE CMD_QUEUE_SIZE address) s).payload_len
      ≤ MAX_PAYLOAD_SIZE ∧
    ((SerialParser.feed MAX_PAYLOAD_SIZE CMD_QUEUE_SIZE
      (SerialParser.init MAX_PAYLOAD_SIZE CMD_QUEUE_SIZE address) s).state
        = ParserState.READ_PAYLOAD →
      0 < (SerialParser.feed MAX_PAYLOAD_SIZE CMD_QUEUE_SIZE
        (SerialParser.init MAX_PAYLOAD_SIZE CMD_QUEUE_SIZE address) s).len ∧
      (SerialParser.feed MAX_PAYLOAD_SIZE CMD_QUEUE_SIZE
        (SerialParser.init MAX_PAYLOAD_SIZE CMD_QUEUE_SIZE address) s).len
        ≤ MAX_PAYLOAD_SIZE ∧
      (SerialParser.feed MAX_PAYLOAD_SIZE CMD_QUEUE_SIZE
        (SerialParser.init MAX_PAYLOAD_SIZE CMD_QUEUE_SIZE address) s).payload_len
        < (SerialParser.feed MAX_PAYLOAD_SIZE CMD_QUEUE_SIZE
          (SerialParser.init MAX_PAYLOAD_SIZE CMD_QUEUE_SIZE address) s).len) ∧
    (∀ c ∈ (SerialParser.feed MAX_PAYLOAD_SIZE CMD_QUEUE_SIZE
        (SerialParser.init MAX_PAYLOAD_SIZE CMD_QUEUE_SIZE address) s).queue,
      c.payload_len ≤ MAX_PAYLOAD_SIZE) ∧
    (∀ byte i : Nat,
      SerialParser.payload_write MAX_PAYLOAD_SIZE
        (SerialParser.feed MAX_PAYLOAD_SIZE CMD_QUEUE_SIZE
          (SerialParser.init MAX_PAYLOAD_SIZE CMD_QUEUE_SIZE address) s) byte = some i →
      i < MAX_PAYLOAD_SIZE ∧
      ∃ x, (SerialParser.parse MAX_PAYLOAD_SIZE CMD_QUEUE_SIZE
          (SerialParser.feed MAX_PAYLOAD_SIZE CMD_QUEUE_SIZE
            (SerialParser.init MAX_PAYLOAD_SIZE CMD_QUEUE_SIZE address) s) byte).payload
        = (SerialParser.feed MAX_PAYLOAD_SIZE CMD_QUEUE_SIZE
            (SerialParser.init MAX_PAYLOAD_SIZE CMD_QUEUE_SIZE address) s).payload.set i x) ∧
    (∀ byte : Nat,
      SerialParser.payload_write MAX_PAYLOAD_SIZE
        (SerialParser.feed MAX_PAYLOAD_SIZE CMD_QUEUE_SIZE
          (SerialParser.init MAX_PAYLOAD_SIZE CMD_QUEUE_SIZE address) s) byte = none →
      (SerialParser.parse MAX_PAYLOAD_SIZE CMD_QUEUE_SIZE
          (SerialParser.feed MAX_PAYLOAD_SIZE CMD_QUEUE_SIZE
            (SerialParser.init MAX_PAYLOAD_SIZE CMD_QUEUE_SIZE address) s) byte).payload
        = (SerialParser.feed MAX_PAYLOAD_SIZE CMD_QUEUE_SIZE
            (SerialParser.init MAX_PAYLOAD_SIZE CMD_QUEUE_SIZE address) s).payload) := by
  have h := SerialParser.feed_payload_bounded MAX_PAYLOAD_SIZE CMD_QUEUE_SIZE s _
    (SerialParser.init_payload_bounded MAX_PAYLOAD_SIZE CMD_QUEUE_SIZE address)
  exact ⟨h.1, h.2.1, h.2.2.2,
    fun byte i hw => ⟨SerialParser.payload_write_lt _ _ byte i hw,
      (SerialParser.parse_payload_eq _ CMD_QUEUE_SIZE _ byte).2 i hw⟩,
    fun byte hw => (SerialParser.parse_payload_eq _ CMD_QUEUE_SIZE _ byte).1 hw⟩

/-! ## Parser: one command per delimiter -/

namespace SerialParser

theorem validate_count_le (QS : Nat) (p : SerialParser) :
    (validate QS p).queue_count ≤ p.queue_count + 1 ∧ (validate QS p).state = p.state := by
  unfold validate enqueue_command
  simp only
  split
  · split
    · exact ⟨Nat.le_refl _, rfl⟩
    · exact ⟨Nat.le_succ _, rfl⟩
  · exact ⟨Nat.le_succ _, rfl⟩

theorem dispatch_count_le (MP QS : Nat) (p : SerialParser) (x : Nat) :
    (dispatch MP QS p x).queue_count
        + (if (dispatch MP QS p x).state = ParserState.WAIT_START then 0 else 1)
      ≤ p.queue_count + (if p.state = ParserState.WAIT_START then 0 else 1) := by
  obtain ⟨address, state, cmd, len, lbr, payload, payload_len, checksum, crc, esc, queue,
    qh, qt, qc⟩ := p
  cases state
  case READ_CHECKSUM =>
    simp only [dispatch]
    have h := validate_count_le QS
      { address := address, state := ParserState.WAIT_START, cmd := cmd, len := len,
        len_bytes_read := lbr, payload := payload, payload_len := payload_len,
        checksum := x, crc8_acc := crc, escape_next := esc, queue := queue,
        queue_head := qh, queue_tail := qt, queue_count := qc }
    obtain ⟨h1, h2⟩ := h
    simp only at h1 h2
    simp only [h2, if_true]
    have e1 : (if ParserState.READ_CHECKSUM = ParserState.WAIT_START then 0 else 1) = 1 := by
      decide
    rw [e1]
    exact h1
  case READ_PAYLOAD =>
    simp only [dispatch]
    split <;> split <;> simp
  case READ_LEN =>
    simp only [dispatch, reset]
    split
    · simp
    · split
      · simp
      · split <;> simp
  case READ_CMD => simp [dispatch]
  case READ_ADDR =>
    simp only [dispatch, reset]
    split <;> simp
  case WAIT_START => simp [dispatch, reset]

theorem parse_count_le (MP QS : Nat) (p : SerialParser) (b : Nat) :
    (parse MP QS p b).queue_count
        + (if (parse MP QS p b).state = ParserState.WAIT_START then 0 else 1)
      ≤ p.queue_count + (if p.state = ParserState.WAIT_START then 0 else 1)
        + [b].count START := by
  unfold parse
  by_cases hb : b = START
  · subst hb
    simp only [if_true, reset]
    have e1 : (if ParserState.READ_ADDR = ParserState.WAIT_START then 0 else 1) = 1 := by
      decide
    have e2 : [START].count START = 1 := by decide
    rw [e1, e2]
    omega
  · rw [if_neg hb]
    have hc : [b].count START = 0 := by
      simp [List.count_cons, hb]
    rw [hc, Nat.add_zero]
    simp only
    generalize (if p.state ≠ ParserState.WAIT_START then unescape p.escape_next b
      else (p.escape_next, some b)) = r
    obtain ⟨r1, r2⟩ := r
    cases r2 with
    | none => exact Nat.le_refl _
    | some x => exact dispatch_count_le MP QS { p with escape_next := r1 } x

theorem feed_count_le (MP QS : Nat) (bytes : List Nat) : ∀ (p : SerialParser),
    (feed MP QS p bytes).queue_count
        + (if (feed MP QS p bytes).state = ParserState.WAIT_START then 0 else 1)
      ≤ p.queue_count + (if p.state = ParserState.WAIT_START then 0 else 1)
        + bytes.count START := by
  induction bytes with
  | nil => intro p; simp [feed]
  | cons b rest ih =>
    intro p
    have h1 := parse_count_le MP QS p b
    have h2 := ih (parse MP QS p b)
    have hc : (b :: rest).count START = [b].count START + rest.count START := by
      rw [← List.count_append]; rfl
    rw [feed_cons, hc]
    omega

/-- Outside a frame, bytes other than the delimiter leave the parser as it was or as
`reset` leaves it. -/
theorem feed_outside_frame (MP QS : Nat) (bytes : List Nat) (p : SerialParser)
    (hs : p.state = ParserState.WAIT_START) (hb : START ∉ bytes) :
    feed MP QS p bytes = p ∨ feed MP QS p bytes = p.reset := by
  cases bytes with
  | nil => exact Or.inl rfl
  | cons b rest =>
    right
    have hne : b ≠ START := fun h => hb (by rw [h]; exact List.mem_cons_self _ _)
    have hp : parse MP QS p b = p.reset := by
      unfold parse
      rw [if_neg hne]
      simp only [hs, ne_eq, not_true_eq_false, if_false]
      unfold dispatch
      simp only [hs]
      rfl
    rw [feed_cons, hp]
    exact feed_wait_start MP QS rest p.reset rfl rfl (fun h => hb (List.mem_cons_of_mem _ h))

end SerialParser

/-- C20: at most one command per delimiter.  After any byte sequence `s` fed to `parse`
from the initial state, whatever the capacity of the queue, the number of commands in
the queue is at most the number of `0xAA` bytes in `s`; a stream with no delimiter leaves
the initial parser untouched; and in `WAIT_START` (where the checksum byte of a frame
leaves the parser) bytes other than the delimiter keep the parser in `WAIT_START`, leave
the queue alone and have no effect on what the next delimiter starts. -/
theorem at_most_one_command_per_delimiter (MAX_PAYLOAD_SIZE CMD_QUEUE_SIZE address : Nat)
    (s : List Nat) :
    (SerialParser.feed MAX_PAYLOAD_SIZE CMD_QUEUE_SIZE
      (SerialParser.init MAX_PAYLOAD_SIZE CMD_QUEUE_SIZE address) s).queue_count
      ≤ s.count START ∧
    (START ∉ s →
      SerialParser.feed MAX_PAYLOAD_SIZE CMD_QUEUE_SIZE
        (SerialParser.init MAX_PAYLOAD_SIZE CMD_QUEUE_SIZE address) s
        = SerialParser.init MAX_PAYLOAD_SIZE CMD_QUEUE_SIZE address) ∧
    (∀ (q : SerialParser) (bytes : List Nat),
      q.state = ParserState.WAIT_START → START ∉ bytes →
      (SerialParser.feed MAX_PAYLOAD_SIZE CMD_QUEUE_SIZE q bytes).state
        = ParserState.WAIT_START ∧
      (SerialParser.feed MAX_PAYLOAD_SIZE CMD_QUEUE_SIZE q bytes).queue = q.queue ∧
      (SerialParser.feed MAX_PAYLOAD_SIZE CMD_QUEUE_SIZE q bytes).queue_head = q.queue_head ∧
      (SerialParser.feed MAX_PAYLOAD_SIZE CMD_QUEUE_SIZE q bytes).queue_tail = q.queue_tail ∧
      (SerialParser.feed MAX_PAYLOAD_SIZE CMD_QUEUE_SIZE q bytes).queue_count
        = q.queue_count ∧
      SerialParser.parse MAX_PAYLOAD_SIZE CMD_QUEUE_SIZE
          (SerialParser.feed MAX_PAYLOAD_SIZE CMD_QUEUE_SIZE q bytes) START
        = SerialParser.parse MAX_PAYLOAD_SIZE CMD_QUEUE_SIZE q START) := by
  refine ⟨?_, ?_, ?_⟩
  · have h := SerialParser.feed_count_le MAX_PAYLOAD_SIZE CMD_QUEUE_SIZE s
      (SerialParser.init MAX_PAYLOAD_SIZE CMD_QUEUE_SIZE address)
    have h0 : (SerialParser.init MAX_PAYLOAD_SIZE CMD_QUEUE_SIZE address).queue_count
        + (if (SerialParser.init MAX_PAYLOAD_SIZE CMD_QUEUE_SIZE address).state
            = ParserState.WAIT_START then 0 else 1) = 0 := by
      simp [SerialParser.init]
    omega
  · intro hs
    exact SerialParser.feed_wait_start _ _ s _ rfl rfl hs
  · intro q bytes hq hb
    rcases SerialParser.feed_outside_frame MAX_PAYLOAD_SIZE CMD_QUEUE_SIZE bytes q hq hb
      with h | h
    · rw [h]
      exact ⟨hq, rfl, rfl, rfl, rfl, rfl⟩
    · rw [h]
      exact ⟨rfl, rfl, rfl, rfl, rfl, by
        rw [SerialParser.parse_start, SerialParser.parse_start]; rfl⟩

/-! ## Framing codec: truncation -/

theorem escape_packet_loop_length (MAX : Nat) (rest : List Nat) :
    ∀ out : List Nat, out.length ≤ MAX →
      (escape_packet_loop MAX rest out).length ≤ MAX := by
  induction rest with
  | nil => intro out h; exact h
  | cons b rest ih =>
    intro out h
    unfold escape_packet_loop
    split
    · split
      · exact h
      · exact ih _ (by simp only [List.length_append, List.length_cons, List.length_nil]; omega)
    · split
      · exact h
      · exact ih _ (by simp only [List.length_append, List.length_cons, List.length_nil]; omega)

theorem escaped_size_eq_count (d : List Nat) :
    escaped_size d = d.length + d.countP (fun b => decide (b = START ∨ b = ESCAPE)) := by
  induction d with
  | nil => rfl
  | cons b rest ih =>
    have hs : escaped_size (b :: rest)
        = (if b = START ∨ b = ESCAPE then 2 else 1) + escaped_size rest := by
      simp only [escaped_size, List.map_cons, List.sum_cons]
    rw [hs, ih, List.countP_cons, List.length_cons]
    by_cases hb : b = START ∨ b = ESCAPE
    · simp only [hb, if_true, decide_True]
      omega
    · simp only [hb, if_false, decide_False, Bool.false_eq_true]
      omega

/-- C14: `escape_packet` truncates rather than overflows.  For every input `d` the
returned length is at most `MAX_ESCAPED_PACKET_SIZE` (the output is written from index 0
on, so every write is at an index below the bound); the output is the escaped form of a
prefix of `d`, hence a prefix of the full escaped form that does not end inside an escape
pair; and when the number of bytes of `d` plus the number of `0xAA`/`0xAB` bytes in `d` is
at most `MAX_ESCAPED_PACKET_SIZE`, the output is the full escaped form and has exactly
that length. -/
theorem escape_packet_truncates (MAX_ESCAPED_PACKET_SIZE : Nat) (d : List Nat) :
    (escape_packet MAX_ESCAPED_PACKET_SIZE d d.length).length ≤ MAX_ESCAPED_PACKET_SIZE ∧
    (∃ k, escape_packet MAX_ESCAPED_PACKET_SIZE d d.length = escape_all (d.take k) ∧
      escape_all d
        = escape_packet MAX_ESCAPED_PACKET_SIZE d d.length ++ escape_all (d.drop k)) ∧
    (d.length + d.countP (fun b => decide (b = START ∨ b = ESCAPE))
        ≤ MAX_ESCAPED_PACKET_SIZE →
      escape_packet MAX_ESCAPED_PACKET_SIZE d d.length = escape_all d ∧
      (escape_packet MAX_ESCAPED_PACKET_SIZE d d.length).length
        = d.length + d.countP (fun b => decide (b = START ∨ b = ESCAPE))) := by
  refine ⟨?_, ?_, ?_⟩
  · unfold escape_packet
    exact escape_packet_loop_length _ _ [] (Nat.zero_le _)
  · obtain ⟨k, hk⟩ := escape_packet_loop_takes MAX_ESCAPED_PACKET_SIZE (d.take d.length) []
    rw [List.take_length, List.nil_append] at hk
    have he : escape_packet MAX_ESCAPED_PACKET_SIZE d d.length = escape_all (d.take k) := by
      unfold escape_packet
      rw [List.take_length]
      exact hk
    refine ⟨k, he, ?_⟩
    rw [he, ← escape_all_append, List.take_append_drop]
  · intro hfit
    rw [← escaped_size_eq_count] at hfit ⊢
    rw [escape_packet_fits _ d hfit, escape_all_length]
    exact ⟨rfl, rfl⟩

/-! ## Channel selector -/

/-- C15: channel mapping.  For every address `a`, `mux_channel a` is in `0..6`; for `a` in
`0x02..0x08` (ACTUATOR_1..ACTUATOR_6, TOOL) it is `a - 2`, so distinct peer addresses get
distinct channels; for every other address, `BROADCAST` and `MASTER` included, it is
`0`. -/
theorem mux_channel_mapping (a : Nat) :
    Byte.mux_channel a ≤ 6 ∧
    (0x02 ≤ a ∧ a ≤ 0x08 → Byte.mux_channel a = a - 2) ∧
    (a < 0x02 ∨ 0x08 < a → Byte.mux_channel a = 0) ∧
    (∀ b : Nat, 0x02 ≤ a ∧ a ≤ 0x08 → 0x02 ≤ b ∧ b ≤ 0x08 →
      Byte.mux_channel a = Byte.mux_channel b → a = b) ∧
    Byte.mux_channel Byte.Address.BROADCAST = 0 ∧
    Byte.mux_channel Byte.Address.MASTER = 0 ∧
    Byte.mux_channel Byte.Address.ACTUATOR_1 = 0 ∧
    Byte.mux_channel Byte.Address.ACTUATOR_2 = 1 ∧
    Byte.mux_channel Byte.Address.ACTUATOR_3 = 2 ∧
    Byte.mux_channel Byte.Address.ACTUATOR_4 = 3 ∧
    Byte.mux_channel Byte.Address.ACTUATOR_5 = 4 ∧
    Byte.mux_channel Byte.Address.ACTUATOR_6 = 5 ∧
    Byte.mux_channel Byte.Address.TOOL = 6 := by
  have hin : ∀ x : Nat, 0x02 ≤ x ∧ x ≤ 0x08 → Byte.mux_channel x = x - 2 := by
    intro x hx
    have hx2 : x = 2 ∨ x = 3 ∨ x = 4 ∨ x = 5 ∨ x = 6 ∨ x = 7 ∨ x = 8 := by omega
    rcases hx2 with h | h | h | h | h | h | h <;> subst h <;> decide
  have hout : a < 0x02 ∨ 0x08 < a → Byte.mux_channel a = 0 := by
    intro h
    unfold Byte.mux_channel Byte.Address.ACTUATOR_1 Byte.Address.ACTUATOR_2
      Byte.Address.ACTUATOR_3 Byte.Address.ACTUATOR_4 Byte.Address.ACTUATOR_5
      Byte.Address.ACTUATOR_6 Byte.Address.TOOL
    rw [if_neg (by omega), if_neg (by omega), if_neg (by omega), if_neg (by omega),
      if_neg (by omega), if_neg (by omega), if_neg (by omega)]
  refine ⟨?_, hin a, hout, ?_, by decide, by decide, by decide, by decide, by decide,
    by decide, by decide, by decide, by decide⟩
  · by_cases h : 0x02 ≤ a ∧ a ≤ 0x08
    · rw [hin a h]; omega
    · rw [hout (by omega)]; omega
  · intro b ha hb hab
    rw [hin a ha, hin b hb] at hab
    omega

/-! ## Controller: status polling -/

theorem status_loop_send_address {F : Type} (s : StatusLoop F) (i : LoopInput) :
    (status_loop_send s i).address = s.address ∧
    (status_loop_send s i).robot_status = s.robot_status := by
  unfold status_loop_send
  split <;> exact ⟨rfl, rfl⟩

theorem status_loop_reply_address {F : Type} (readFloatLE : List Nat → F) (s : StatusLoop F)
    (cmd : Command) :
    (status_loop_reply readFloatLE s cmd).address =
      if s.address = ACTUATOR_1 then ACTUATOR_2
      else if s.address = ACTUATOR_2 then ACTUATOR_3
      else if s.address = ACTUATOR_3 then ACTUATOR_4
      else if s.address = ACTUATOR_4 then ACTUATOR_1
      else s.address := by
  unfold status_loop_reply
  simp only
  split
  · rfl
  · split
    · rfl
    · split
      · rfl
      · split <;> rfl

theorem actuator_status_loop_step_address {F : Type} (T : Nat) (readFloatLE : List Nat → F)
    (s : StatusLoop F) (i : LoopInput)
    (h : s.address = ACTUATOR_1 ∨ s.address = ACTUATOR_2 ∨ s.address = ACTUATOR_3
      ∨ s.address = ACTUATOR_4) :
    (actuator_status_loop_step T readFloatLE s i).address = ACTUATOR_1 ∨
    (actuator_status_loop_step T readFloatLE s i).address = ACTUATOR_2 ∨
    (actuator_status_loop_step T readFloatLE s i).address = ACTUATOR_3 ∨
    (actuator_status_loop_step T readFloatLE s i).address = ACTUATOR_4 := by
  have hsend := (status_loop_send_address s i).1
  have hreply : ∀ cmd, (status_loop_reply readFloatLE (status_loop_send s i) cmd).address
      = ACTUATOR_1 ∨ (status_loop_reply readFloatLE (status_loop_send s i) cmd).address
      = ACTUATOR_2 ∨ (status_loop_reply readFloatLE (status_loop_send s i) cmd).address
      = ACTUATOR_3 ∨ (status_loop_reply readFloatLE (status_loop_send s i) cmd).address
      = ACTUATOR_4 := by
    intro cmd
    rw [status_loop_reply_address, hsend]
    rcases h with h | h | h | h <;> rw [h] <;> decide
  have hkeep : (status_loop_send s i).address = ACTUATOR_1 ∨
      (status_loop_send s i).address = ACTUATOR_2 ∨
      (status_loop_send s i).address = ACTUATOR_3 ∨
      (status_loop_send s i).address = ACTUATOR_4 := by
    rw [hsend]; exact h
  unfold actuator_status_loop_step
  simp only
  split
  · split
    · split
      · exact hreply _
      · exact hkeep
    · exact hkeep
  · split
    · exact hkeep
    · exact hkeep

theorem actuator_status_loop_address {F : Type} (T : Nat) (readFloatLE : List Nat → F)
    (inputs : List LoopInput) : ∀ (s : StatusLoop F),
    (s.address = ACTUATOR_1 ∨ s.address = ACTUATOR_2 ∨ s.address = ACTUATOR_3
      ∨ s.address = ACTUATOR_4) →
    ((actuator_status_loop T readFloatLE s inputs).address = ACTUATOR_1 ∨
    (actuator_status_loop T readFloatLE s inputs).address = ACTUATOR_2 ∨
    (actuator_status_loop T readFloatLE s inputs).address = ACTUATOR_3 ∨
    (actuator_status_loop T readFloatLE s inputs).address = ACTUATOR_4) := by
  induction inputs with
  | nil => intro s h; exact h
  | cons i rest ih =>
    intro s h
    exact ih _ (actuator_status_loop_step_address T readFloatLE s i h)

/-- On a timeout the loop keeps the address it polled. -/
theorem actuator_status_loop_step_timeout {F : Type} (T : Nat) (readFloatLE : List Nat → F)
    (s : StatusLoop F) (i : LoopInput) (hsent : s.packet_sent = true)
    (havail : i.available = 0)
    (hlate : (i.check_millis + 2 ^ 32 - s.packet_timestamp) % 2 ^ 32 > T) :
    actuator_status_loop_step T readFloatLE s i
      = { s with packet_sent := false, mutex_held := false } := by
  have hs : status_loop_send s i = s := by
    unfold status_loop_send
    simp [hsent]
  unfold actuator_status_loop_step
  simp only [hs, havail, ne_eq, not_true_eq_false, if_false, hlate, if_true]
  rfl

/-- C16: status-poll timeout, the code at the failing input.  With timeout 1000, the
loop sends a STATUS request to ACTUATOR_1 at time 0, sees no command, and at time 1001
takes the timeout branch: the bus lock is released and `packet_sent` is cleared, but the
address is still ACTUATOR_1, and the next request (time 1002) goes to ACTUATOR_1 again,
not to ACTUATOR_2. -/
theorem status_timeout_polls_same_peer_again :
    (actuator_status_loop 1000 (fun _ => (0 : Nat))
      { address := ACTUATOR_1, packet_sent := false, packet_timestamp := 0,
        mutex_held := false, mux := 0, sent := [],
        robot_status := ⟨0, 0, 0, 0⟩, robot_position := ⟨0, 0, 0, 0⟩ }
      [{ send_millis := 0, available := 0, read := none, check_millis := 0 },
       { send_millis := 1001, available := 0, read := none, check_millis := 1001 }])
      = { address := ACTUATOR_1, packet_sent := false, packet_timestamp := 0,
          mutex_held := false, mux := 0, sent := [(ACTUATOR_1, Byte.Command.STATUS)],
          robot_status := ⟨0, 0, 0, 0⟩, robot_position := ⟨0, 0, 0, 0⟩ } ∧
    (actuator_status_loop 1000 (fun _ => (0 : Nat))
      { address := ACTUATOR_1, packet_sent := false, packet_timestamp := 0,
        mutex_held := false, mux := 0, sent := [],
        robot_status := ⟨0, 0, 0, 0⟩, robot_position := ⟨0, 0, 0, 0⟩ }
      [{ send_millis := 0, available := 0, read := none, check_millis := 0 },
       { send_millis := 1001, available := 0, read := none, check_millis := 1001 },
       { send_millis := 1002, available := 0, read := none, check_millis := 1002 }]).sent
      = [(ACTUATOR_1, Byte.Command.STATUS), (ACTUATOR_1, Byte.Command.STATUS)] := by
  constructor <;> decide

/-- C17: status-poll round robin on reply.  When a STATUS reply is dequeued while the
loop polls ACTUATOR_1..ACTUATOR_4, the status entry of that actuator becomes payload byte
0 and the other three entries keep their values, the address moves along
ACTUATOR_1 → ACTUATOR_2 → ACTUATOR_3 → ACTUATOR_4 → ACTUATOR_1, the bus lock is released
and `packet_sent` is cleared; and from ACTUATOR_1, whatever the loop observes, the polled
address stays within ACTUATOR_1..ACTUATOR_4. -/
theorem status_reply_advances_round_robin {F : Type} (SERIAL_PROTOCOL_TIMEOUT : Nat)
    (readFloatLE : List Nat → F) (s : StatusLoop F) (i : LoopInput) (cmd : Command)
    (havail : i.available ≠ 0) (hread : i.read = some cmd)
    (hcmd : cmd.cmd = Byte.Command.STATUS) :
    (s.address = ACTUATOR_1 →
      (actuator_status_loop_step SERIAL_PROTOCOL_TIMEOUT readFloatLE s i).robot_status
        = { s.robot_status with actuator_1 := cmd.payload.getD 0 0 } ∧
      (actuator_status_loop_step SERIAL_PROTOCOL_TIMEOUT readFloatLE s i).address
        = ACTUATOR_2) ∧
    (s.address = ACTUATOR_2 →
      (actuator_status_loop_step SERIAL_PROTOCOL_TIMEOUT readFloatLE s i).robot_status
        = { s.robot_status with actuator_2 := cmd.payload.getD 0 0 } ∧
      (actuator_status_loop_step SERIAL_PROTOCOL_TIMEOUT readFloatLE s i).address
        = ACTUATOR_3) ∧
    (s.address = ACTUATOR_3 →
      (actuator_status_loop_step SERIAL_PROTOCOL_TIMEOUT readFloatLE s i).robot_status
        = { s.robot_status with actuator_3 := cmd.payload.getD 0 0 } ∧
      (actuator_status_loop_step SERIAL_PROTOCOL_TIMEOUT readFloatLE s i).address
        = ACTUATOR_4) ∧
    (s.address = ACTUATOR_4 →
      (actuator_status_loop_step SERIAL_PROTOCOL_TIMEOUT readFloatLE s i).robot_status
        = { s.robot_status with actuator_4 := cmd.payload.getD 0 0 } ∧
      (actuator_status_loop_step SERIAL_PROTOCOL_TIMEOUT readFloatLE s i).address
        = ACTUATOR_1) ∧
    (actuator_status_loop_step SERIAL_PROTOCOL_TIMEOUT readFloatLE s i).mutex_held = false ∧
    (actuator_status_loop_step SERIAL_PROTOCOL_TIMEOUT readFloatLE s i).packet_sent = false ∧
    (∀ (start : StatusLoop F) (inputs : List LoopInput), start.address = ACTUATOR_1 →
      (actuator_status_loop SERIAL_PROTOCOL_TIMEOUT readFloatLE start inputs).address
          = ACTUATOR_1 ∨
      (actuator_status_loop SERIAL_PROTOCOL_TIMEOUT readFloatLE start inputs).address
          = ACTUATOR_2 ∨
      (actuator_status_loop SERIAL_PROTOCOL_TIMEOUT readFloatLE start inputs).address
          = ACTUATOR_3 ∨
      (actuator_status_loop SERIAL_PROTOCOL_TIMEOUT readFloatLE start inputs).address
          = ACTUATOR_4) := by
  have hstep : actuator_status_loop_step SERIAL_PROTOCOL_TIMEOUT readFloatLE s i
      = status_loop_reply readFloatLE (status_loop_send s i) cmd := by
    unfold actuator_status_loop_step
    simp only [havail, ne_eq, not_false_eq_true, if_true, hread, hcmd]
  obtain ⟨ha, hst⟩ := status_loop_send_address s i
  rw [hstep]
  have hcase : ∀ a : Nat, s.address = a →
      (status_loop_send s i).address = a := fun a h => ha.trans h
  refine ⟨?_, ?_, ?_, ?_, rfl, rfl, ?_⟩
  · intro h
    have h1 := hcase _ h
    unfold status_loop_reply
    simp only [h1, if_true, hst]
    constructor <;> trivial
  · intro h
    have h1 := hcase _ h
    unfold status_loop_reply
    simp only [h1, hst]
    exact ⟨rfl, rfl⟩
  · intro h
    have h1 := hcase _ h
    unfold status_loop_reply
    simp only [h1, hst]
    exact ⟨rfl, rfl⟩
  · intro h
    have h1 := hcase _ h
    unfold status_loop_reply
    simp only [h1, hst]
    exact ⟨rfl, rfl⟩
  · intro start inputs h
    exact actuator_status_loop_address SERIAL_PROTOCOL_TIMEOUT readFloatLE inputs start
      (Or.inl h)

theorem status_reply_advances_round_robin_witness :
    (({ send_millis := 5, available := 1,
        read := some { cmd := Byte.Command.STATUS, payload := [0x01, 0, 0, 0, 0],
                       payload_len := 5 },
        check_millis := 6 } : LoopInput).available ≠ 0 ∧
      ({ send_millis := 5, available := 1,
         read := some { cmd := Byte.Command.STATUS, payload := [0x01, 0, 0, 0, 0],
                        payload_len := 5 },
         check_millis := 6 } : LoopInput).read
        = some { cmd := Byte.Command.STATUS, payload := [0x01, 0, 0, 0, 0],
                 payload_len := 5 } ∧
      ({ cmd := Byte.Command.STATUS, payload := [0x01, 0, 0, 0, 0], payload_len := 5 }
        : Command).cmd = Byte.Command.STATUS) ∧
    (actuator_status_loop_step 1000 (fun _ => (0 : Nat))
        { address := ACTUATOR_4, packet_sent := true, packet_timestamp := 0,
          mutex_held := true, mux := 3, sent := [(ACTUATOR_4, Byte.Command.STATUS)],
          robot_status := ⟨0, 0, 0, 0⟩, robot_position := ⟨0, 0, 0, 0⟩ }
        { send_millis := 5, available := 1,
          read := some { cmd := Byte.Command.STATUS, payload := [0x01, 0, 0, 0, 0],
                         payload_len := 5 },
          check_millis := 6 }).address = ACTUATOR_1 :=
  ⟨by decide,
   ((status_reply_advances_round_robin 1000 (fun _ => (0 : Nat))
      { address := ACTUATOR_4, packet_sent := true, packet_timestamp := 0,
        mutex_held := true, mux := 3, sent := [(ACTUATOR_4, Byte.Command.STATUS)],
        robot_status := ⟨0, 0, 0, 0⟩, robot_position := ⟨0, 0, 0, 0⟩ }
      { send_millis := 5, available := 1,
        read := some { cmd := Byte.Command.STATUS, payload := [0x01, 0, 0, 0, 0],
                       payload_len := 5 },
        check_millis := 6 }
      { cmd := Byte.Command.STATUS, payload := [0x01, 0, 0, 0, 0], payload_len := 5 }
      (by decide) (by decide) (by decide)).2.2.2.1 rfl).2⟩

/-! ## Controller: composite operations -/

theorem estop_eq_until_first_failure {σ : Type} (estop_peer : Nat → σ → Bool × σ) (w : σ) :
    estop estop_peer w
      = until_first_failure
          ([ACTUATOR_1, ACTUATOR_2, ACTUATOR_3, ACTUATOR_4].map estop_peer) w := by
  simp only [estop, until_first_failure, List.map_cons, List.map_nil]
  split
  · split
    · split
      · split
        · rename_i h
          exact Prod.ext h rfl
        · rename_i h
          exact Prod.ext (Bool.eq_false_iff.mpr h) rfl
      · rfl
    · rfl
  · rfl

theorem load_traj_eq_until_first_failure {σ A : Type}
    (load_traj_peer : Nat → A → σ → Bool × σ) (trajectory : RobotTrajectory A) (w : σ) :
    load_traj load_traj_peer trajectory w
      = until_first_failure
          [load_traj_peer ACTUATOR_1 trajectory.actuator_1,
           load_traj_peer ACTUATOR_2 trajectory.actuator_2,
           load_traj_peer ACTUATOR_3 trajectory.actuator_3,
           load_traj_peer ACTUATOR_4 trajectory.actuator_4] w := by
  simp only [load_traj, until_first_failure]
  split
  · split
    · split
      · split
        · rename_i h
          exact Prod.ext h rfl
        · rename_i h
          exact Prod.ext (Bool.eq_false_iff.mpr h) rfl
      · rfl
    · rfl
  · rfl

/-- With an oracle `ok` for the peers and a log of the peers addressed, a chain of four
transactions succeeds when all four do, and addresses the peers in order up to and
including the first that fails. -/
theorem until_first_failure_logged (ok : Nat → Bool) (a1 a2 a3 a4 : Nat) :
    until_first_failure
        ([a1, a2, a3, a4].map (fun a (log : List Nat) => (ok a, log ++ [a]))) []
      = ([a1, a2, a3, a4].all ok,
         [a1, a2, a3, a4].takeWhile ok ++ ([a1, a2, a3, a4].dropWhile ok).take 1) := by
  cases h1 : ok a1 <;> cases h2 : ok a2 <;> cases h3 : ok a3 <;> cases h4 : ok a4 <;>
    simp [until_first_failure, List.takeWhile, List.dropWhile, h1, h2, h3, h4]

/-- C18: composite estop short-circuits.  The robot-wide `estop()` runs the per-peer
transactions for ACTUATOR_1, ACTUATOR_2, ACTUATOR_3, ACTUATOR_4 in that order up to and
including the first that fails.  With the per-peer transaction an oracle `ok` that logs
the peer it addresses, `estop()` returns success exactly when `ok` holds for all four,
and the peers addressed are those before the first failing one and that one; when the
first peer fails the result is failure and only the first peer is addressed. -/
theorem estop_short_circuits {σ : Type} (estop_peer : Nat → σ → Bool × σ) (w : σ)
    (ok : Nat → Bool) :
    estop estop_peer w
      = until_first_failure
          ([ACTUATOR_1, ACTUATOR_2, ACTUATOR_3, ACTUATOR_4].map estop_peer) w ∧
    ((estop (fun a (log : List Nat) => (ok a, log ++ [a])) []).1 = true ↔
      ok ACTUATOR_1 = true ∧ ok ACTUATOR_2 = true ∧ ok ACTUATOR_3 = true
        ∧ ok ACTUATOR_4 = true) ∧
    (estop (fun a (log : List Nat) => (ok a, log ++ [a])) []).2
      = [ACTUATOR_1, ACTUATOR_2, ACTUATOR_3, ACTUATOR_4].takeWhile ok
        ++ ([ACTUATOR_1, ACTUATOR_2, ACTUATOR_3, ACTUATOR_4].dropWhile ok).take 1 ∧
    (ok ACTUATOR_1 = false →
      estop (fun a (log : List Nat) => (ok a, log ++ [a])) [] = (false, [ACTUATOR_1])) := by
  have hlog := until_first_failure_logged ok ACTUATOR_1 ACTUATOR_2 ACTUATOR_3 ACTUATOR_4
  rw [← estop_eq_until_first_failure] at hlog
  refine ⟨estop_eq_until_first_failure estop_peer w, ?_, ?_, ?_⟩
  · rw [hlog]
    simp [and_assoc]
  · rw [hlog]
  · intro h1
    rw [hlog]
    simp [List.takeWhile, List.dropWhile, h1]

/-- C19: TRAJ dispatch.  On a TRAJ command `parse_cmd` runs the per-peer loads for
ACTUATOR_1..ACTUATOR_4 in order up to and including the first that fails; it sends an
EXEC_TRAJ packet addressed to BROADCAST on the actuator channel exactly when all four
loads succeeded, and it sends exactly one reply on the client channel, addressed to
BROADCAST, whose command is ACK in that case and NACK otherwise. -/
theorem traj_dispatch {σ A : Type} (codes : ControllerCodes)
    (estop_peer : Nat → σ → Bool × σ) (load_traj_peer : Nat → A → σ → Bool × σ)
    (decode : List Nat → Nat → RobotTrajectory A) (position : List Nat)
    (payload : List Nat) (payload_len : Nat) (w : Controller σ) (ok : Nat → Bool)
    (hne1 : codes.TRAJ ≠ codes.ESTOP) (hne2 : codes.TRAJ ≠ codes.POS) :
    load_traj load_traj_peer (decode payload payload_len) w.peers
      = until_first_failure
          [load_traj_peer ACTUATOR_1 (decode payload payload_len).actuator_1,
           load_traj_peer ACTUATOR_2 (decode payload payload_len).actuator_2,
           load_traj_peer ACTUATOR_3 (decode payload payload_len).actuator_3,
           load_traj_peer ACTUATOR_4 (decode payload payload_len).actuator_4] w.peers ∧
    (parse_cmd codes estop_peer load_traj_peer decode position codes.TRAJ payload
        payload_len w).peers
      = (load_traj load_traj_peer (decode payload payload_len) w.peers).2 ∧
    (parse_cmd codes estop_peer load_traj_peer decode position codes.TRAJ payload
        payload_len w).actuator_sent
      = w.actuator_sent ++
        (if (load_traj load_traj_peer (decode payload payload_len) w.peers).1 then
          [(BROADCAST, Byte.Command.EXEC_TRAJ)] else []) ∧
    (parse_cmd codes estop_peer load_traj_peer decode position codes.TRAJ payload
        payload_len w).client_sent
      = w.client_sent ++
        [(BROADCAST,
          if (load_traj load_traj_peer (decode payload payload_len) w.peers).1 then codes.ACK
          else codes.NACK, [])] ∧
    ((load_traj (fun a (_ : A) (log : List Nat) => (ok a, log ++ [a]))
        (decode payload payload_len) []).1 = true ↔
      ok ACTUATOR_1 = true ∧ ok ACTUATOR_2 = true ∧ ok ACTUATOR_3 = true
        ∧ ok ACTUATOR_4 = true) ∧
    (load_traj (fun a (_ : A) (log : List Nat) => (ok a, log ++ [a]))
        (decode payload payload_len) []).2
      = [ACTUATOR_1, ACTUATOR_2, ACTUATOR_3, ACTUATOR_4].takeWhile ok
        ++ ([ACTUATOR_1, ACTUATOR_2, ACTUATOR_3, ACTUATOR_4].dropWhile ok).take 1 := by
  have hlog := until_first_failure_logged ok ACTUATOR_1 ACTUATOR_2 ACTUATOR_3 ACTUATOR_4
  have hl : load_traj (fun a (_ : A) (log : List Nat) => (ok a, log ++ [a]))
      (decode payload payload_len) []
      = until_first_failure
          ([ACTUATOR_1, ACTUATOR_2, ACTUATOR_3, ACTUATOR_4].map
            (fun a (log : List Nat) => (ok a, log ++ [a]))) [] := by
    rw [load_traj_eq_until_first_failure]
    rfl
  refine ⟨load_traj_eq_until_first_failure _ _ _, ?_, ?_, ?_, ?_, ?_⟩
  · unfold parse_cmd
    rw [if_neg hne1, if_neg hne2, if_pos rfl]
    simp only
    split <;> rfl
  · unfold parse_cmd
    rw [if_neg hne1, if_neg hne2, if_pos rfl]
    simp only
    split <;> simp
  · unfold parse_cmd
    rw [if_neg hne1, if_neg hne2, if_pos rfl]
    simp only
    split <;> rfl
  · rw [hl, hlog]
    simp [and_assoc]
  · rw [hl, hlog]

theorem traj_dispatch_witness :
    ((3 : Nat) ≠ 1 ∧ (3 : Nat) ≠ 2) ∧
    (parse_cmd ⟨1, 2, 3, 0xEE, 0xFF⟩
        (fun a (log : List Nat) => (true, log ++ [a]))
        (fun a (_ : Nat) (log : List Nat) => (decide (a ≠ ACTUATOR_2), log ++ [a]))
        (fun _ _ => ⟨0, 0, 0, 0⟩) [] 3 [] 0
        { peers := [], actuator_sent := [], client_sent := [] }).client_sent
      = [(BROADCAST, 0xFF, [])] :=
  ⟨by decide,
   ((traj_dispatch ⟨1, 2, 3, 0xEE, 0xFF⟩
      (fun a (log : List Nat) => (true, log ++ [a]))
      (fun a (_ : Nat) (log : List Nat) => (decide (a ≠ ACTUATOR_2), log ++ [a]))
      (fun _ _ => ⟨0, 0, 0, 0⟩) [] [] 0
      { peers := [], actuator_sent := [], client_sent := [] } (fun _ => true)
      (by decide) (by decide)).2.2.2.1).trans (by decide)⟩

/-! ## Command queue: the ring-buffer invariant -/

namespace SerialParser

theorem run_ops_wf (QS : Nat) (ops : List QueueOp) : ∀ (p : SerialParser),
    queue_wf QS p → queue_wf QS (run_ops QS p ops).1 := by
  induction ops with
  | nil => intro p h; exact h
  | cons op rest ih =>
    intro p h
    cases op with
    | enqueue cmd payload n => exact ih _ (enqueue_command_wf QS p cmd payload n h)
    | read => exact ih _ (read_wf QS p h)

/-- An enqueue leaves every slot that holds a waiting command as it was. -/
theorem enqueue_command_keeps_waiting (QS : Nat) (p : SerialParser) (cmd : Nat)
    (payload : List Nat) (n i : Nat) (hwf : queue_wf QS p) (hi : i < p.queue_count) :
    (enqueue_command QS p cmd payload n).queue.getD ((p.queue_head + i) % QS) default
      = p.queue.getD ((p.queue_head + i) % QS) default := by
  obtain ⟨_, _, h3, h4⟩ := hwf
  unfold enqueue_command
  split
  · rename_i hroom
    have hne : p.queue_tail ≠ (p.queue_head + i) % QS := by
      rw [h4]; exact ring_index_ne QS _ i _ hi hroom
    simp only [List.getD_eq_getElem?_getD, List.getElem?_set_ne hne]
  · rfl

end SerialParser

/-- C21: ring-buffer invariant.  From `queue_head = queue_tail = queue_count = 0` (with
`CMD_QUEUE_SIZE ≥ 1` slots), after any sequence of `enqueue_command` and `read` calls,
`queue_count ≤ CMD_QUEUE_SIZE`, `queue_head < CMD_QUEUE_SIZE`,
`queue_tail < CMD_QUEUE_SIZE` and
`queue_tail = (queue_head + queue_count) mod CMD_QUEUE_SIZE`; so the slot an enqueue
writes is none of the `queue_count` slots from `queue_head` on, which hold the commands
not yet read, and those slots keep their contents. -/
theorem ring_buffer_invariant (CMD_QUEUE_SIZE : Nat) (parser : SerialParser)
    (ops : List QueueOp)
    (hcap : 1 ≤ CMD_QUEUE_SIZE)
    (hslots : parser.queue.length = CMD_QUEUE_SIZE)
    (hhead : parser.queue_head = 0) (htail : parser.queue_tail = 0)
    (hcount : parser.queue_count = 0) :
    (SerialParser.run_ops CMD_QUEUE_SIZE parser ops).1.queue_count ≤ CMD_QUEUE_SIZE ∧
    (SerialParser.run_ops CMD_QUEUE_SIZE parser ops).1.queue_head < CMD_QUEUE_SIZE ∧
    (SerialParser.run_ops CMD_QUEUE_SIZE parser ops).1.queue_tail < CMD_QUEUE_SIZE ∧
    (SerialParser.run_ops CMD_QUEUE_SIZE parser ops).1.queue_tail
      = ((SerialParser.run_ops CMD_QUEUE_SIZE parser ops).1.queue_head
          + (SerialParser.run_ops CMD_QUEUE_SIZE parser ops).1.queue_count)
        % CMD_QUEUE_SIZE ∧
    (SerialParser.run_ops CMD_QUEUE_SIZE parser ops).1.queue.length = CMD_QUEUE_SIZE ∧
    (∀ (cmd : Nat) (payload : List Nat) (payload_len i : Nat),
      i < (SerialParser.run_ops CMD_QUEUE_SIZE parser ops).1.queue_count →
      ((SerialParser.run_ops CMD_QUEUE_SIZE parser ops).1.queue_count < CMD_QUEUE_SIZE →
        (SerialParser.run_ops CMD_QUEUE_SIZE parser ops).1.queue_tail
          ≠ ((SerialParser.run_ops CMD_QUEUE_SIZE parser ops).1.queue_head + i)
            % CMD_QUEUE_SIZE) ∧
      (SerialParser.enqueue_command CMD_QUEUE_SIZE
          (SerialParser.run_ops CMD_QUEUE_SIZE parser ops).1 cmd payload payload_len).queue.getD
          (((SerialParser.run_ops CMD_QUEUE_SIZE parser ops).1.queue_head + i)
            % CMD_QUEUE_SIZE) default
        = (SerialParser.run_ops CMD_QUEUE_SIZE parser ops).1.queue.getD
            (((SerialParser.run_ops CMD_QUEUE_SIZE parser ops).1.queue_head + i)
              % CMD_QUEUE_SIZE) default) := by
  have hstart : SerialParser.queue_wf CMD_QUEUE_SIZE parser := by
    refine ⟨hslots, by omega, by omega, ?_⟩
    rw [htail, hhead, hcount]
    exact (Nat.zero_mod _).symm
  have hwf := SerialParser.run_ops_wf CMD_QUEUE_SIZE ops parser hstart
  obtain ⟨h1, h2, h3, h4⟩ := hwf
  refine ⟨h3, h2, ?_, h4, h1, ?_⟩
  · rw [h4]
    exact Nat.mod_lt _ (by omega)
  · intro cmd payload payload_len i hi
    refine ⟨fun hroom => ?_, ?_⟩
    · rw [h4]
      exact SerialParser.ring_index_ne CMD_QUEUE_SIZE _ i _ hi hroom
    · exact SerialParser.enqueue_command_keeps_waiting CMD_QUEUE_SIZE _ cmd payload
        payload_len i ⟨h1, h2, h3, h4⟩ hi

theorem ring_buffer_invariant_witness :
    (1 ≤ 2 ∧ (SerialParser.init 4 2 0x02).queue.length = 2 ∧
      (SerialParser.init 4 2 0x02).queue_head = 0 ∧
      (SerialParser.init 4 2 0x02).queue_tail = 0 ∧
      (SerialParser.init 4 2 0x02).queue_count = 0) ∧
    (SerialParser.run_ops 2 (SerialParser.init 4 2 0x02)
        [QueueOp.enqueue 0x01 [0x0A] 1, QueueOp.enqueue 0x02 [0x0B, 0x0C] 2,
          QueueOp.enqueue 0x03 [] 0, QueueOp.read, QueueOp.enqueue 0x04 [0x0D] 1,
          QueueOp.read, QueueOp.read, QueueOp.read]).1.queue_count ≤ 2 ∧
    (SerialParser.run_ops 2 (SerialParser.init 4 2 0x02)
        [QueueOp.enqueue 0x01 [0x0A] 1, QueueOp.enqueue 0x02 [0x0B, 0x0C] 2,
          QueueOp.enqueue 0x03 [] 0, QueueOp.read, QueueOp.enqueue 0x04 [0x0D] 1,
          QueueOp.read, QueueOp.read, QueueOp.read]).1.queue_head < 2 :=
  ⟨by decide,
   (ring_buffer_invariant 2 (SerialParser.init 4 2 0x02)
      [QueueOp.enqueue 0x01 [0x0A] 1, QueueOp.enqueue 0x02 [0x0B, 0x0C] 2,
        QueueOp.enqueue 0x03 [] 0, QueueOp.read, QueueOp.enqueue 0x04 [0x0D] 1,
        QueueOp.read, QueueOp.read, QueueOp.read]
      (by decide) (by decide) (by decide) (by decide) (by decide)).1,
   (ring_buffer_invariant 2 (SerialParser.init 4 2 0x02)
      [QueueOp.enqueue 0x01 [0x0A] 1, QueueOp.enqueue 0x02 [0x0B, 0x0C] 2,
        QueueOp.enqueue 0x03 [] 0, QueueOp.read, QueueOp.enqueue 0x04 [0x0D] 1,
        QueueOp.read, QueueOp.read, QueueOp.read]
      (by decide) (by decide) (by decide) (by decide) (by decide)).2.1⟩
